import Mathlib

/-!
Chat-list entry ordering (`Dialogs::Entry`): a shallow embedding of
`Telegram/SourceFiles/dialogs/dialogs_entry.cpp`, followed by the size
computation of a game message (`HistoryGame::countCurrentSize`).

* Machine integers are `Nat`/`Int` with explicit reduction: `uint64` values are
  naturals below `2 ^ 64`, the C++ `int` is an `Int` in `[-2 ^ 31, 2 ^ 31)` whose
  increment wraps around in two's complement, and the conversion `int → uint64`
  is reduction modulo `2 ^ 64`.
* The process-wide counter `DialogsPosToTopShift` and the `QSettings` store are
  explicit components of a `World` that every member function transforms.
* Calls to collaborators (`App::main()`, `Auth().data()`) and to the virtual
  hooks are recorded in the log of the `World`, in order; what a collaborator
  does in response is outside the model.
* A failed `Assert` is `none`.
-/

namespace Dialogs

/-! Data model -/

/-- The two chat lists an entry may belong to (`Dialogs::Mode`). -/
inductive Mode where
  | All
  | Important
  deriving DecidableEq, Repr

/-- A `Row*` handle, identified by a number. -/
abbrev Row := Nat

/-- The `RowsByLetter` map from an index letter (a `QChar` code unit) to a row;
the first pair with a given letter is the mapping of that letter. -/
abbrev RowsByLetter := List (Nat × Row)

/-- What the code reads of a `QDateTime`: `isNull()`, the `uint` returned by
`toTime_t()` (reduced modulo `2 ^ 32` where it is used) and the position on the
time line that the comparison operators compare. -/
structure QDateTime where
  isNull : Bool
  toTime_t : Nat
  msecs : Int
  deriving DecidableEq, Repr

/-- The data members of `Dialogs::Entry`; `keyId` is `_key.id()`. -/
structure Entry where
  keyId : Nat
  _pinnedIndex : Int
  _isProxyPromoted : Bool
  _isFavorite : Bool
  _sortKeyInChatList : Nat
  _lastMessageDate : QDateTime
  linksAll : RowsByLetter
  linksImportant : RowsByLetter
  deriving DecidableEq, Repr

/-- Calls made to collaborators and to the virtual hooks, in order. -/
inductive Event where
  | createDialog (key : Nat)
  | removeDialog (key : Nat)
  | repaintDialogRow (list : Mode) (row : Row)
  | changedInChatListHook (list : Mode) (added : Bool)
  | changedChatListPinHook
  | insertPinnedDialog (key : Nat) (index : Int)
  deriving DecidableEq, Repr

/-- The two `QSettings` groups the entry uses, keyed by the number that
`QString::number` prints. -/
structure Settings where
  pinned : List (Nat × Int)
  favorites : List (Nat × Bool)
  deriving DecidableEq, Repr

/-- Everything a member function of `Entry` reads or writes. -/
structure World where
  entry : Entry
  DialogsPosToTopShift : Int
  settings : Settings
  log : List Event
  deriving DecidableEq, Repr

/-- What the file takes from outside: whether `App::main()` is non-null and the
two pure virtual predicates of `Entry`. -/
structure Env where
  hasMain : Bool
  useProxyPromotion : Entry → Bool
  shouldBeInChatList : Entry → Bool

/-! Machine integers -/

/-- Reduction of an integer to the range of a 32-bit two's-complement `int`. -/
def wrapInt32 (x : Int) : Int := (x + 2 ^ 31) % 2 ^ 32 - 2 ^ 31

/-- Conversion of an `int` to `uint64`. -/
def toUInt64 (x : Int) : Nat := (x % 2 ^ 64).toNat

/-! The settings store -/

/-- `QSettings::value` within a group; `none` is the invalid `QVariant` of an
absent key. -/
def value {α : Type} (group : List (Nat × α)) (key : Nat) : Option α :=
  List.lookup key group

/-- `QSettings::contains` within a group. -/
def contains {α : Type} (group : List (Nat × α)) (key : Nat) : Bool :=
  (value group key).isSome

/-- `QSettings::remove` within a group. -/
def remove {α : Type} (group : List (Nat × α)) (key : Nat) : List (Nat × α) :=
  group.filter fun p => p.1 != key

/-- `QSettings::setValue` within a group. -/
def setValue {α : Type} (group : List (Nat × α)) (key : Nat) (v : α) : List (Nat × α) :=
  (key, v) :: remove group key

/-! Sort keys -/

/-- `DialogPosFromDate`: returns the key and the new value of the counter
`DialogsPosToTopShift`. -/
def DialogPosFromDate (date : QDateTime) (counter : Int) : Nat × Int :=
  if date.isNull then
    (0, counter)
  else
    let shift := wrapInt32 (counter + 1)
    ((((date.toTime_t % 2 ^ 32) <<< 32) % 2 ^ 64) ||| toUInt64 shift, shift)

/-- `ProxyPromotedDialogPos`. -/
def ProxyPromotedDialogPos : Nat := 0xFFFFFFFFFFFF0001

/-- `PinnedDialogPos`. -/
def PinnedDialogPos (pinnedIndex : Int) : Nat :=
  (0xFFFFFFFF00000000 + toUInt64 pinnedIndex) % 2 ^ 64

/-! Membership -/

/-- `Entry::chatListLinks` (read). -/
def chatListLinks (e : Entry) (list : Mode) : RowsByLetter :=
  match list with
  | Mode.All => e.linksAll
  | Mode.Important => e.linksImportant

/-- `Entry::chatListLinks` (write through the returned reference). -/
def setChatListLinks (e : Entry) (list : Mode) (links : RowsByLetter) : Entry :=
  match list with
  | Mode.All => { e with linksAll := links }
  | Mode.Important => { e with linksImportant := links }

/-- `RowsByLetter::find`. -/
def RowsByLetter.find (links : RowsByLetter) (letter : Nat) : Option Row :=
  (List.find? (fun p => p.1 == letter) links).map Prod.snd

/-- Modelled from the spec: `Entry::inChatList` is defined in `dialogs_entry.h`,
which is not among the sources; an entry is in a list iff its letter-0 mapping
exists. -/
def inChatList (e : Entry) (list : Mode) : Bool :=
  ((chatListLinks e list).find 0).isSome

/-- Modelled from the spec: `Entry::isPinnedDialog` is defined in
`dialogs_entry.h`, which is not among the sources; an entry is pinned iff
`pinnedIndex > 0`. -/
def isPinnedDialog (e : Entry) : Bool := decide (0 < e._pinnedIndex)

/-- Modelled from the spec: `Entry::chatsListDate` is defined in
`dialogs_entry.h`, which is not among the sources; it is the cached
last-message date. -/
def chatsListDate (e : Entry) : QDateTime := e._lastMessageDate

/-- `Entry::adjustChatListDate`. -/
def adjustChatListDate (e : Entry) : QDateTime := chatsListDate e

/-- `Entry::mainChatListLink`; `none` is the failed `Assert`. -/
def mainChatListLink (e : Entry) (list : Mode) : Option Row :=
  (chatListLinks e list).find 0

/-- `Entry::needUpdateInChatList`. -/
def needUpdateInChatList (env : Env) (e : Entry) : Bool :=
  inChatList e Mode.All || env.shouldBeInChatList e

/-- Appends one call to the log. -/
def World.emit (w : World) (ev : Event) : World :=
  { w with log := w.log ++ [ev] }

/-- `Entry::updateChatListEntry() const`. -/
def updateChatListEntry (env : Env) (w : World) : Option World :=
  if env.hasMain then
    if inChatList w.entry Mode.All then
      (mainChatListLink w.entry Mode.All).bind fun rowAll =>
        let w1 := w.emit (Event.repaintDialogRow Mode.All rowAll)
        if inChatList w1.entry Mode.Important then
          (mainChatListLink w1.entry Mode.Important).bind fun rowImportant =>
            some (w1.emit (Event.repaintDialogRow Mode.Important rowImportant))
        else
          some w1
    else
      some w
  else
    some w

/-- `Entry::setChatListExistence`. -/
def setChatListExistence (env : Env) (exists_ : Bool) (w : World) : Option World :=
  if env.hasMain then
    if exists_ && w.entry._sortKeyInChatList != 0 then
      updateChatListEntry env (w.emit (Event.createDialog w.entry.keyId))
    else
      some (w.emit (Event.removeDialog w.entry.keyId))
  else
    some w

/-- The key that `Entry::updateChatListSortPosition` stores, with the new value
of the counter. -/
def computeSortKey (env : Env) (e : Entry) (counter : Int) : Nat × Int :=
  if env.useProxyPromotion e then
    (ProxyPromotedDialogPos, counter)
  else if isPinnedDialog e then
    (PinnedDialogPos e._pinnedIndex, counter)
  else
    DialogPosFromDate (adjustChatListDate e) counter

/-- `Entry::updateChatListSortPosition`. -/
def updateChatListSortPosition (env : Env) (w : World) : Option World :=
  let r := computeSortKey env w.entry w.DialogsPosToTopShift
  let w1 : World :=
    { w with
      entry := { w.entry with _sortKeyInChatList := r.1 }
      DialogsPosToTopShift := r.2 }
  if needUpdateInChatList env w1.entry then
    setChatListExistence env true w1
  else
    some w1

/-- `Entry::updateChatListExistence`. -/
def updateChatListExistence (env : Env) (w : World) : Option World :=
  setChatListExistence env (env.shouldBeInChatList w.entry) w

/-- `Entry::cachePinnedIndex`. -/
def cachePinnedIndex (env : Env) (index : Int) (w : World) : Option World :=
  if w.entry._pinnedIndex != index then
    let wasPinned := isPinnedDialog w.entry
    let w1 : World := { w with entry := { w.entry with _pinnedIndex := index } }
    (updateChatListSortPosition env w1).bind fun w2 =>
      (updateChatListEntry env w2).bind fun w3 =>
        let w4 :=
          if wasPinned != isPinnedDialog w3.entry then
            w3.emit Event.changedChatListPinHook
          else
            w3
        some { w4 with
          settings := { w4.settings with
            pinned := setValue w4.settings.pinned w4.entry.keyId w4.entry._pinnedIndex } }
  else
    some w

/-- `Entry::cacheProxyPromoted`. -/
def cacheProxyPromoted (env : Env) (promoted : Bool) (w : World) : Option World :=
  if w.entry._isProxyPromoted != promoted then
    let w1 : World := { w with entry := { w.entry with _isProxyPromoted := promoted } }
    (updateChatListSortPosition env w1).bind fun w2 =>
      (updateChatListEntry env w2).bind fun w3 =>
        if !w3.entry._isProxyPromoted then
          updateChatListExistence env w3
        else
          some w3
  else
    some w

/-- `QDateTime::operator>=`. -/
def QDateTime.ge (a b : QDateTime) : Bool := decide (b.msecs ≤ a.msecs)

/-- `Entry::setChatsListDate`. -/
def setChatsListDate (env : Env) (date : QDateTime) (w : World) : Option World :=
  let accept : Option World :=
    updateChatListSortPosition env
      { w with entry := { w.entry with _lastMessageDate := date } }
  if !w.entry._lastMessageDate.isNull && w.entry._lastMessageDate.ge date then
    if !inChatList w.entry Mode.All then
      some w
    else
      accept
  else
    accept

/-- The two member functions of `Dialogs::IndexedList` that the entry calls, on
a collection of state `σ`; `dialogs_indexed_list.cpp` is not among the sources,
so they are taken as given. -/
structure IndexedList (σ : Type) where
  addToEnd : σ → Nat → RowsByLetter × σ
  del : σ → Nat → σ

/-- `Entry::addToChatList`: the returned row, the new world and the new state
of the collection. -/
def addToChatList {σ : Type} (ops : IndexedList σ) (list : Mode)
    (w : World) (indexed : σ) : Option (Row × World × σ) :=
  let r : World × σ :=
    if !inChatList w.entry list then
      let added := ops.addToEnd indexed w.entry.keyId
      (({ w with entry := setChatListLinks w.entry list added.1 }).emit
        (Event.changedInChatListHook list true), added.2)
    else
      (w, indexed)
  (mainChatListLink r.1.entry list).map fun row => (row, r.1, r.2)

/-- `Entry::removeFromChatList`. -/
def removeFromChatList {σ : Type} (ops : IndexedList σ) (list : Mode)
    (w : World) (indexed : σ) : World × σ :=
  if inChatList w.entry list then
    (({ w with entry := setChatListLinks w.entry list [] }).emit
      (Event.changedInChatListHook list false), ops.del indexed w.entry.keyId)
  else
    (w, indexed)

/-- `Entry::loadIsFavorite`. -/
def loadIsFavorite (id : Nat) (w : World) : World :=
  if contains w.settings.favorites id then
    { w with entry := { w.entry with
        _isFavorite := (value w.settings.favorites id).getD false } }
  else
    { w with entry := { w.entry with _isFavorite := false } }

/-- `Entry::loadPinnedIndex`; an absent value converts to `0` by `toInt()`. -/
def loadPinnedIndex (id : Nat) (w : World) : World :=
  let w1 : World :=
    { w with entry := { w.entry with
        _pinnedIndex := (value w.settings.pinned id).getD 0 } }
  if 0 < w1.entry._pinnedIndex then
    w1.emit (Event.insertPinnedDialog w1.entry.keyId w1.entry._pinnedIndex)
  else
    w1

/-- `Entry::Entry(key, id)`: the members start as in `init` (their initialisers
are in `dialogs_entry.h`), `_key` is `key`, and the two loads run. -/
def construct (key id : Nat) (init : Entry) (w : World) : World :=
  loadPinnedIndex id (loadIsFavorite id { w with entry := { init with keyId := key } })

/-- `Entry::setIsFavoriteDialog`. -/
def setIsFavoriteDialog (isFavorite : Bool) (w : World) : World :=
  if w.entry._isFavorite != isFavorite then
    let w1 : World := { w with entry := { w.entry with _isFavorite := isFavorite } }
    if w1.entry._isFavorite then
      { w1 with settings := { w1.settings with
          favorites := setValue w1.settings.favorites w1.entry.keyId w1.entry._isFavorite } }
    else
      { w1 with settings := { w1.settings with
          favorites := remove w1.settings.favorites w1.entry.keyId } }
  else
    w

/-- `Entry::toggleIsFavoriteDialog`. -/
def toggleIsFavoriteDialog (w : World) : World :=
  setIsFavoriteDialog (!w.entry._isFavorite) w

/-! What the calls to the list owner are -/

/-- The repaint requests of `updateChatListEntry` for an entry. -/
def repaintEvents (env : Env) (e : Entry) : List Event :=
  if env.hasMain then
    match mainChatListLink e Mode.All with
    | none => []
    | some rowAll =>
      Event.repaintDialogRow Mode.All rowAll ::
        (mainChatListLink e Mode.Important).toList.map (Event.repaintDialogRow Mode.Important)
  else
    []

/-- The requests of `setChatListExistence` for an entry. -/
def existenceEvents (env : Env) (exists_ : Bool) (e : Entry) : List Event :=
  if env.hasMain then
    if exists_ && e._sortKeyInChatList != 0 then
      Event.createDialog e.keyId :: repaintEvents env e
    else
      [Event.removeDialog e.keyId]
  else
    []

/-- The entry after `updateChatListSortPosition` has stored the new key. -/
def withSortKey (env : Env) (w : World) : Entry :=
  { w.entry with
    _sortKeyInChatList := (computeSortKey env w.entry w.DialogsPosToTopShift).1 }

/-- The requests of `updateChatListSortPosition`. -/
def sortPositionEvents (env : Env) (w : World) : List Event :=
  if needUpdateInChatList env (withSortKey env w) then
    existenceEvents env true (withSortKey env w)
  else
    []

/-- Sequential calls of `DialogPosFromDate`: the counter after them. -/
def counterAfter (dates : List QDateTime) (counter : Int) : Int :=
  dates.foldl (fun c d => (DialogPosFromDate d c).2) counter

/-- Sequential calls of `cachePinnedIndex`, one per rank of the list. -/
def cachePinnedIndexAll (env : Env) : List Int → World → Option World
  | [], w => some w
  | index :: rest, w => (cachePinnedIndex env index w).bind (cachePinnedIndexAll env rest)

/-- The number of `changedChatListPinHook` calls in a log. -/
def pinHookCount (log : List Event) : Nat :=
  log.count Event.changedChatListPinHook

/-- The cached rank is the one a reload of the entry's own key would give. -/
def pinnedInSync (w : World) : Prop :=
  w.entry._pinnedIndex = (value w.settings.pinned w.entry.keyId).getD 0

/-! Letter indices and positions -/

/-- `RowsByLetter::remove`. -/
def RowsByLetter.remove (links : RowsByLetter) (letter : Nat) : RowsByLetter :=
  List.filter (fun p => p.1 != letter) links

/-- `RowsByLetter::emplace`: a letter that already has a mapping keeps it. -/
def RowsByLetter.emplace (links : RowsByLetter) (letter : Nat) (row : Row) : RowsByLetter :=
  if (RowsByLetter.find links letter).isSome then links else links ++ [(letter, row)]

/-- `Entry::removeChatListEntryByLetter`; `none` is the failed `Expects`. -/
def removeChatListEntryByLetter (list : Mode) (letter : Nat) (w : World) : Option World :=
  if letter != 0 then
    if inChatList w.entry list then
      let links := RowsByLetter.remove (chatListLinks w.entry list) letter
      some { w with entry := setChatListLinks w.entry list links }
    else
      some w
  else
    none

/-- `Entry::addChatListEntryByLetter`; `none` is the failed `Expects`. -/
def addChatListEntryByLetter (list : Mode) (letter : Nat) (row : Row) (w : World) :
    Option World :=
  if letter != 0 then
    if inChatList w.entry list then
      let links := RowsByLetter.emplace (chatListLinks w.entry list) letter row
      some { w with entry := setChatListLinks w.entry list links }
    else
      some w
  else
    none

/-- What `Row::pos` and `IndexedList::adjustByPos` do on a collection of state
`σ`, which holds the positions of its rows; neither is among the sources, so
they are taken as given. -/
structure RowPositions (σ : Type) where
  pos : σ → Row → Int
  adjustByPos : σ → RowsByLetter → σ

/-- `Entry::posInChatList`. -/
def posInChatList {σ : Type} (rp : RowPositions σ) (list : Mode) (w : World)
    (indexed : σ) : Option Int :=
  (mainChatListLink w.entry list).map fun lnk => rp.pos indexed lnk

/-- `Entry::adjustByPosInChatList`: the pair `(movedFrom, movedTo)` and the new
state of the collection. -/
def adjustByPosInChatList {σ : Type} (rp : RowPositions σ) (list : Mode) (w : World)
    (indexed : σ) : Option ((Int × Int) × σ) :=
  (mainChatListLink w.entry list).map fun lnk =>
    let movedFrom := rp.pos indexed lnk
    let indexed1 := rp.adjustByPos indexed (chatListLinks w.entry list)
    let movedTo := rp.pos indexed1 lnk
    ((movedFrom, movedTo), indexed1)

/-- One call of a member function that changes the link maps of an entry. -/
inductive LinkStep where
  | addToChatList (list : Mode)
  | removeFromChatList (list : Mode)
  | addChatListEntryByLetter (list : Mode) (letter : Nat) (row : Row)
  | removeChatListEntryByLetter (list : Mode) (letter : Nat)
  deriving DecidableEq, Repr

/-- The letter a call passes, when it passes one. -/
def LinkStep.letter : LinkStep → Option Nat
  | LinkStep.addToChatList _ => none
  | LinkStep.removeFromChatList _ => none
  | LinkStep.addChatListEntryByLetter _ letter _ => some letter
  | LinkStep.removeChatListEntryByLetter _ letter => some letter

/-- Runs one call; each list has its own indexed collection `ops list`, all
kept in the state `σ`. -/
def runStep {σ : Type} (ops : Mode → IndexedList σ) (step : LinkStep) (ws : World × σ) :
    Option (World × σ) :=
  match step with
  | LinkStep.addToChatList list =>
    (addToChatList (ops list) list ws.1 ws.2).map fun r => r.2
  | LinkStep.removeFromChatList list =>
    some (removeFromChatList (ops list) list ws.1 ws.2)
  | LinkStep.addChatListEntryByLetter list letter row =>
    (addChatListEntryByLetter list letter row ws.1).map fun w => (w, ws.2)
  | LinkStep.removeChatListEntryByLetter list letter =>
    (removeChatListEntryByLetter list letter ws.1).map fun w => (w, ws.2)

/-- Runs a sequence of calls, stopping at the first failed assertion. -/
def runSteps {σ : Type} (ops : Mode → IndexedList σ) :
    List LinkStep → World × σ → Option (World × σ)
  | [], ws => some ws
  | step :: rest, ws => (runStep ops step ws).bind (runSteps ops rest)

/-- Every non-empty link map of the entry has a letter-0 mapping. -/
def linksAnchored (e : Entry) : Prop :=
  ∀ list, chatListLinks e list = [] ∨ ((chatListLinks e list).find 0).isSome = true

/-! Concrete states -/

/-- A date one second after the epoch. -/
def dateOne : QDateTime := { isNull := false, toTime_t := 1, msecs := 1000 }

/-- An indexed collection kept as the list of its keys: `addToEnd` appends the
key and hands out the letter-0 row numbered by the old length, `del` erases the
key. -/
def keyList : IndexedList (List Nat) :=
  { addToEnd := fun keys key => ([(0, keys.length)], keys ++ [key])
    del := fun keys key => keys.filter fun k => k != key }

/-- An environment with the list owner present, promotion used exactly when the
entry is flagged as promoted, and every entry wanted in the list. -/
def envPlain : Env :=
  { hasMain := true
    useProxyPromotion := fun e => e._isProxyPromoted
    shouldBeInChatList := fun _ => true }

/-- A date one second before the epoch: not null, and out of the range of
`toTime_t()`, which then returns `uint(-1)`. -/
def dateBeforeEpoch : QDateTime := { isNull := false, toTime_t := 0xFFFFFFFF, msecs := -1000 }

/-- A date five seconds after the epoch. -/
def dateFive : QDateTime := { isNull := false, toTime_t := 5, msecs := 5000 }

/-- The null date. -/
def dateNull : QDateTime := { isNull := true, toTime_t := 0xFFFFFFFF, msecs := 0 }

/-- A fresh entry with key id 7: unpinned, not promoted, no date, in no list. -/
def entryFresh : Entry :=
  { keyId := 7
    _pinnedIndex := 0
    _isProxyPromoted := false
    _isFavorite := false
    _sortKeyInChatList := 0
    _lastMessageDate := dateNull
    linksAll := []
    linksImportant := [] }

/-- A world around an entry with the counter at a given value, empty settings
and an empty log. -/
def worldOf (e : Entry) (counter : Int) : World :=
  { entry := e
    DialogsPosToTopShift := counter
    settings := { pinned := [], favorites := [] }
    log := [] }

/-- A world around the fresh entry in which rank 2 is stored for key 7 and key 7
is stored as favorite. -/
def worldStored : World :=
  { entry := entryFresh
    DialogsPosToTopShift := 0
    settings := { pinned := [(7, 2)], favorites := [(7, true)] }
    log := [] }

/-- A world around a favorite entry with key 7, stored as favorite. -/
def worldFavorite : World :=
  { entry := { entryFresh with _isFavorite := true }
    DialogsPosToTopShift := 0
    settings := { pinned := [], favorites := [(7, true)] }
    log := [] }

/-- Rows positioned at their own number; `adjustByPos` leaves the collection as
it is. -/
def positionsPlain : RowPositions (List Nat) :=
  { pos := fun _ row => row
    adjustByPos := fun keys _ => keys }

end Dialogs

/-! The size of a game message (`HistoryGame::countCurrentSize`), from
`Telegram/SourceFiles/history/media/history_media_game.cpp`. Sums, differences
and products of `int`s are reduced to the 32-bit range; a division by zero is
`none`. -/

namespace HistoryGame

/-- Sum of two `int`s. -/
def addInt (a b : Int) : Int := Dialogs.wrapInt32 (a + b)

/-- Difference of two `int`s. -/
def subInt (a b : Int) : Int := Dialogs.wrapInt32 (a - b)

/-- Product of two `int`s. -/
def mulInt (a b : Int) : Int := Dialogs.wrapInt32 (a * b)

/-- Quotient of two `int`s, rounded toward zero; `none` when the divisor is 0. -/
def divInt (a b : Int) : Option Int := if b = 0 then none else some (Int.tdiv a b)

/-- What the function reads of the attached media `_attach`: its
`bubbleMargins()`, its `customInfoLayout()`, and the `width()` and `height()` it
has after `resizeGetHeight` with a given width. -/
structure Attach where
  bubbleLeft : Int
  bubbleTop : Int
  bubbleRight : Int
  bubbleBottom : Int
  customInfoLayout : Bool
  resizeGetHeight : Int → Int × Int

/-- What `countCurrentSize` takes from outside: the style constants, the two
texts (`isEmpty()` and `countHeight(width)`), the attached media and the
geometry of the parent; none of them is defined among the sources. -/
structure Layout where
  maxWidth : Int
  msgPaddingLeft : Int
  msgPaddingRight : Int
  webPageLeft : Int
  webPageTitleFontHeight : Int
  webPageDescriptionFontHeight : Int
  unitedLineHeight : Int
  mediaInBubbleSkip : Int
  titleIsEmpty : Bool
  titleCountHeight : Int → Int
  descriptionIsEmpty : Bool
  descriptionCountHeight : Int → Int
  attach : Option Attach
  isBubbleBottom : Bool
  skipBlockWidth : Int
  bottomInfoPadding : Int
  inBubblePaddingTop : Int
  inBubblePaddingBottom : Int

/-- The members `_titleLines` and `_descriptionLines` after the call and the
returned `QSize`. -/
structure Sized where
  _titleLines : Int
  _descriptionLines : Int
  width : Int
  height : Int
  deriving DecidableEq, Repr

/-- `accumulate_min(a, b)`: `a` becomes `b` when `a > b`. -/
def accumulate_min (a b : Int) : Int := if a > b then b else a

/-- The local `innerWidth` of `countCurrentSize`. -/
def innerWidth (env : Layout) (newWidth : Int) : Int :=
  subInt (subInt (subInt (accumulate_min newWidth env.maxWidth) env.msgPaddingLeft)
    env.webPageLeft) env.msgPaddingRight

/-- The title part of `countCurrentSize`: `_titleLines` and the height so far. -/
def titlePart (env : Layout) (inner : Int) : Int × Int :=
  if env.titleIsEmpty then
    (0, 0)
  else
    let titleLines : Int :=
      if env.titleCountHeight inner < mulInt 2 env.webPageTitleFontHeight then 1 else 2
    (titleLines, addInt 0 (mulInt titleLines env.unitedLineHeight))

/-- The description part of `countCurrentSize`: `_descriptionLines` and the
height added to `newHeight`. -/
def descriptionPart (env : Layout) (inner titleLines newHeight : Int) : Option (Int × Int) :=
  let linesMax : Int := 4096
  if env.descriptionIsEmpty then
    some (0, newHeight)
  else
    let descriptionHeight := env.descriptionCountHeight inner
    let lines : Option Int :=
      if descriptionHeight
          < mulInt (subInt linesMax titleLines) env.webPageDescriptionFontHeight then
        divInt descriptionHeight env.webPageDescriptionFontHeight
      else
        some (subInt linesMax titleLines)
    lines.map fun descriptionLines =>
      (descriptionLines, addInt newHeight (mulInt descriptionLines env.unitedLineHeight))

/-- The attached-media part of `countCurrentSize`: the new `newHeight`. -/
def attachPart (env : Layout) (inner titleLines descriptionLines newHeight : Int) : Int :=
  match env.attach with
  | none => newHeight
  | some attach =>
    let attachAtTop := titleLines == 0 && descriptionLines == 0
    let h1 := if !attachAtTop then addInt newHeight env.mediaInBubbleSkip else newHeight
    let resized :=
      attach.resizeGetHeight (addInt (addInt inner attach.bubbleLeft) attach.bubbleRight)
    let h2 := addInt h1 (subInt (subInt resized.2 attach.bubbleTop) attach.bubbleBottom)
    if env.isBubbleBottom && attach.customInfoLayout
        && decide (addInt resized.1 env.skipBlockWidth
            > addInt (addInt inner attach.bubbleLeft) attach.bubbleRight) then
      addInt h2 env.bottomInfoPadding
    else
      h2

/-- `HistoryGame::countCurrentSize`. -/
def countCurrentSize (env : Layout) (newWidth : Int) : Option Sized :=
  let width := accumulate_min newWidth env.maxWidth
  let inner := innerWidth env newWidth
  let title := titlePart env inner
  (descriptionPart env inner title.1 title.2).map fun description =>
    let h := attachPart env inner title.1 description.1 description.2
    { _titleLines := title.1
      _descriptionLines := description.1
      width := width
      height := addInt h (addInt env.inBubblePaddingTop env.inBubblePaddingBottom) }

/-- A layout without attached media, with fonts 10 high, a title that wraps to
a given height and a description that wraps to a given height. -/
def layoutOf (titleHeight descriptionHeight : Int) : Layout :=
  { maxWidth := 400
    msgPaddingLeft := 13
    msgPaddingRight := 13
    webPageLeft := 10
    webPageTitleFontHeight := 10
    webPageDescriptionFontHeight := 10
    unitedLineHeight := 10
    mediaInBubbleSkip := 5
    titleIsEmpty := false
    titleCountHeight := fun _ => titleHeight
    descriptionIsEmpty := false
    descriptionCountHeight := fun _ => descriptionHeight
    attach := none
    isBubbleBottom := false
    skipBlockWidth := 40
    bottomInfoPadding := 0
    inBubblePaddingTop := 0
    inBubblePaddingBottom := 0 }

end HistoryGame

namespace Dialogs

/-! Lemmas -/

theorem updateChatListEntry_eq (env : Env) (w : World) :
    updateChatListEntry env w
      = some { w with log := w.log ++ repaintEvents env w.entry } := by
  unfold updateChatListEntry repaintEvents inChatList mainChatListLink World.emit
  cases env.hasMain
  · simp
  · cases hA : (chatListLinks w.entry Mode.All).find 0
    · simp
    · cases hI : (chatListLinks w.entry Mode.Important).find 0 <;> simp [hI]

theorem setChatListExistence_eq (env : Env) (b : Bool) (w : World) :
    setChatListExistence env b w
      = some { w with log := w.log ++ existenceEvents env b w.entry } := by
  unfold setChatListExistence existenceEvents
  cases env.hasMain
  · simp
  · cases hb : (b && w.entry._sortKeyInChatList != 0)
    · simp [World.emit]
    · simp [updateChatListEntry_eq, World.emit]

theorem updateChatListSortPosition_eq (env : Env) (w : World) :
    updateChatListSortPosition env w
      = some { entry := withSortKey env w
               DialogsPosToTopShift := (computeSortKey env w.entry w.DialogsPosToTopShift).2
               settings := w.settings
               log := w.log ++ sortPositionEvents env w } := by
  unfold updateChatListSortPosition sortPositionEvents
  simp only [withSortKey]
  split
  · rw [setChatListExistence_eq]
  · simp

theorem updateChatListExistence_eq (env : Env) (w : World) :
    updateChatListExistence env w
      = some { w with log := w.log
                ++ existenceEvents env (env.shouldBeInChatList w.entry) w.entry } := by
  unfold updateChatListExistence
  rw [setChatListExistence_eq]

theorem wrapInt32_of_range (x : Int) (h0 : -2 ^ 31 ≤ x) (h1 : x < 2 ^ 31) :
    wrapInt32 x = x := by
  unfold wrapInt32
  omega

theorem toUInt64_of_nonneg (x : Int) (h0 : 0 ≤ x) (h1 : x < 2 ^ 64) :
    toUInt64 x = x.toNat := by
  unfold toUInt64
  rw [Int.emod_eq_of_lt h0 h1]

theorem PinnedDialogPos_of_pos (p : Int) (h0 : 0 ≤ p) (h1 : p < 2 ^ 31) :
    PinnedDialogPos p = 0xFFFFFFFF00000000 + p.toNat := by
  unfold PinnedDialogPos
  rw [toUInt64_of_nonneg p h0 (by omega)]
  omega

theorem DialogPosFromDate_of_range (date : QDateTime) (c : Int)
    (hn : date.isNull = false) (h0 : -1 ≤ c) (h1 : c < 2 ^ 31 - 1) :
    DialogPosFromDate date c
      = (2 ^ 32 * (date.toTime_t % 2 ^ 32) + (c + 1).toNat, c + 1) := by
  unfold DialogPosFromDate
  simp only [hn, Bool.false_eq_true, if_false]
  rw [wrapInt32_of_range (c + 1) (by omega) (by omega),
    toUInt64_of_nonneg (c + 1) (by omega) (by omega), Nat.shiftLeft_eq]
  have ht : date.toTime_t % 2 ^ 32 < 2 ^ 32 := Nat.mod_lt _ (by norm_num)
  have hlt : (date.toTime_t % 2 ^ 32) * 2 ^ 32 < 2 ^ 64 := by omega
  rw [Nat.mod_eq_of_lt hlt, Nat.mul_comm,
    ← Nat.mul_add_lt_is_or (by omega : (c + 1).toNat < 2 ^ 32)]

theorem counterAfter_bounds (dates : List QDateTime) (c : Int)
    (h0 : -1 ≤ c) (h1 : c + dates.length < 2 ^ 31) :
    c ≤ counterAfter dates c ∧ counterAfter dates c ≤ c + dates.length := by
  induction dates generalizing c with
  | nil => simp [counterAfter]
  | cons d ds ih =>
    simp only [List.length_cons, Nat.cast_add, Nat.cast_one] at h1
    have hstep : counterAfter (d :: ds) c = counterAfter ds (DialogPosFromDate d c).2 := rfl
    rw [hstep]
    cases hn : d.isNull
    · rw [DialogPosFromDate_of_range d c hn h0 (by omega)]
      have := ih (c + 1) (by omega) (by omega)
      simp only [List.length_cons, Nat.cast_add, Nat.cast_one]
      omega
    · have hd : DialogPosFromDate d c = (0, c) := by simp [DialogPosFromDate, hn]
      rw [hd]
      have := ih c h0 (by omega)
      simp only [List.length_cons, Nat.cast_add, Nat.cast_one]
      omega

theorem wrapInt32_add_wrapInt32 (x n : Int) :
    wrapInt32 (wrapInt32 x + n) = wrapInt32 (x + n) := by
  unfold wrapInt32
  omega

theorem counterAfter_replicate (d : QDateTime) (hn : d.isNull = false) (n : Nat) (c : Int) :
    counterAfter (List.replicate n d) (wrapInt32 c) = wrapInt32 (c + n) := by
  induction n generalizing c with
  | zero => simp [counterAfter]
  | succ k ih =>
    have hstep : counterAfter (List.replicate (k + 1) d) (wrapInt32 c)
        = counterAfter (List.replicate k d) (DialogPosFromDate d (wrapInt32 c)).2 := rfl
    have hd : (DialogPosFromDate d (wrapInt32 c)).2 = wrapInt32 (c + 1) := by
      simp [DialogPosFromDate, hn, wrapInt32_add_wrapInt32]
    rw [hstep, hd, ih]
    congr 1
    push_cast
    omega

/-! Ordering of the sort keys -/

/-- C1: when proxy promotion is in use on one entry and another entry is pinned
(rank in `1 .. 2^31 - 1`) and not promoted, `updateChatListSortPosition` returns
on both, stores `ProxyPromotedDialogPos` in the first and
`PinnedDialogPos(pinnedIndex)` in the second, and the first key is strictly
greater as an unsigned 64-bit value. -/
theorem promoted_key_gt_pinned_key (env : Env) (wp wq : World)
    (hpromo : env.useProxyPromotion wp.entry = true)
    (hnot : env.useProxyPromotion wq.entry = false)
    (hpin : 0 < wq.entry._pinnedIndex) (hint : wq.entry._pinnedIndex < 2 ^ 31) :
    ∃ wp' wq', updateChatListSortPosition env wp = some wp' ∧
      updateChatListSortPosition env wq = some wq' ∧
      wp'.entry._sortKeyInChatList = ProxyPromotedDialogPos ∧
      wq'.entry._sortKeyInChatList = PinnedDialogPos wq.entry._pinnedIndex ∧
      wq'.entry._sortKeyInChatList < wp'.entry._sortKeyInChatList ∧
      wp'.entry._sortKeyInChatList < 2 ^ 64 := by
  refine ⟨_, _, updateChatListSortPosition_eq env wp, updateChatListSortPosition_eq env wq,
    ?_, ?_, ?_, ?_⟩
  · simp [withSortKey, computeSortKey, hpromo]
  · simp [withSortKey, computeSortKey, hnot, isPinnedDialog, hpin]
  · simp only [withSortKey, computeSortKey, hpromo, hnot, isPinnedDialog, hpin, decide_True,
      if_true, Bool.false_eq_true, if_false]
    rw [PinnedDialogPos_of_pos _ (by omega) hint]
    unfold ProxyPromotedDialogPos
    omega
  · simp only [withSortKey, computeSortKey, hpromo, if_true]
    unfold ProxyPromotedDialogPos
    omega

/-- C1, at a promoted entry that is itself pinned with rank 3 and an
unpromoted entry pinned with the largest rank `2^31 - 1`. -/
theorem promoted_key_gt_pinned_key_witness :
    ∃ wp' wq',
      updateChatListSortPosition envPlain
        (worldOf { entryFresh with _isProxyPromoted := true, _pinnedIndex := 3 } 0) = some wp' ∧
      updateChatListSortPosition envPlain
        (worldOf { entryFresh with _pinnedIndex := 2147483647 } 0) = some wq' ∧
      wp'.entry._sortKeyInChatList = ProxyPromotedDialogPos ∧
      wq'.entry._sortKeyInChatList = PinnedDialogPos 2147483647 ∧
      wq'.entry._sortKeyInChatList < wp'.entry._sortKeyInChatList ∧
      wp'.entry._sortKeyInChatList < 2 ^ 64 :=
  promoted_key_gt_pinned_key envPlain
    (worldOf { entryFresh with _isProxyPromoted := true, _pinnedIndex := 3 } 0)
    (worldOf { entryFresh with _pinnedIndex := 2147483647 } 0)
    rfl rfl (by decide) (by decide)

/-- C2 fails as stated: (1) with the counter at 1, an unpinned entry whose date
has `toTime_t() = 0xFFFFFFFF` gets the key `0xFFFFFFFF00000002`, above the key
`0xFFFFFFFF00000001` of an entry pinned with rank 1; (2) with the counter at
`-2`, an unpinned entry dated five seconds after the epoch gets the key
`2^64 - 1`, above the key of an entry pinned with the largest rank. -/
theorem pinned_key_not_above_every_date_key :
    ((updateChatListSortPosition envPlain
        (worldOf { entryFresh with _pinnedIndex := 1 } 1)).map
          (fun w => w.entry._sortKeyInChatList) = some 0xFFFFFFFF00000001 ∧
      (updateChatListSortPosition envPlain
        (worldOf { entryFresh with _lastMessageDate := dateBeforeEpoch } 1)).map
          (fun w => w.entry._sortKeyInChatList) = some 0xFFFFFFFF00000002 ∧
      ¬ (DialogPosFromDate dateBeforeEpoch 1).1 < PinnedDialogPos 1) ∧
    ((updateChatListSortPosition envPlain
        (worldOf { entryFresh with _pinnedIndex := 2147483647 } (-2))).map
          (fun w => w.entry._sortKeyInChatList) = some 0xFFFFFFFF7FFFFFFF ∧
      (updateChatListSortPosition envPlain
        (worldOf { entryFresh with _lastMessageDate := dateFive } (-2))).map
          (fun w => w.entry._sortKeyInChatList) = some 0xFFFFFFFFFFFFFFFF ∧
      ¬ (DialogPosFromDate dateFive (-2)).1 < PinnedDialogPos 2147483647) := by
  decide

/-- C2, amended: for a pinned, unpromoted entry (rank in `1 .. 2^31 - 1`) and an
entry that is neither pinned nor promoted, whose date is null, or has
`toTime_t()` below `0xFFFFFFFF` while the counter `c` satisfies
`-1 ≤ c < 2^31 - 1` (the incremented counter is a non-negative `int`),
`updateChatListSortPosition` returns on both and the pinned entry's key
`PinnedDialogPos(pinnedIndex)` is strictly greater than the other entry's key
`DialogPosFromDate(date)`. -/
theorem pinned_key_gt_date_key (env : Env) (wp wd : World)
    (hp : env.useProxyPromotion wp.entry = false)
    (hpin : 0 < wp.entry._pinnedIndex) (hint : wp.entry._pinnedIndex < 2 ^ 31)
    (hd : env.useProxyPromotion wd.entry = false)
    (hunpinned : wd.entry._pinnedIndex ≤ 0)
    (hdate : wd.entry._lastMessageDate.isNull = true ∨
      (wd.entry._lastMessageDate.toTime_t < 0xFFFFFFFF ∧
        -1 ≤ wd.DialogsPosToTopShift ∧ wd.DialogsPosToTopShift < 2 ^ 31 - 1)) :
    ∃ wp' wd', updateChatListSortPosition env wp = some wp' ∧
      updateChatListSortPosition env wd = some wd' ∧
      wp'.entry._sortKeyInChatList = PinnedDialogPos wp.entry._pinnedIndex ∧
      wd'.entry._sortKeyInChatList
        = (DialogPosFromDate wd.entry._lastMessageDate wd.DialogsPosToTopShift).1 ∧
      wd'.entry._sortKeyInChatList < wp'.entry._sortKeyInChatList := by
  have hnp : ¬ 0 < wd.entry._pinnedIndex := by omega
  refine ⟨_, _, updateChatListSortPosition_eq env wp, updateChatListSortPosition_eq env wd,
    ?_, ?_, ?_⟩
  · simp [withSortKey, computeSortKey, hp, isPinnedDialog, hpin]
  · simp [withSortKey, computeSortKey, hd, isPinnedDialog, hnp, adjustChatListDate,
      chatsListDate]
  · simp only [withSortKey, computeSortKey, hp, hd, isPinnedDialog, hpin, hnp, decide_True,
      decide_False, if_true, Bool.false_eq_true, if_false, adjustChatListDate, chatsListDate]
    rw [PinnedDialogPos_of_pos _ (by omega) hint]
    cases hnull : wd.entry._lastMessageDate.isNull
    · rcases hdate with h | ⟨ht, hc0, hc1⟩
      · rw [hnull] at h
        cases h
      · rw [DialogPosFromDate_of_range _ _ hnull hc0 hc1]
        simp only []
        omega
    · have hz : (DialogPosFromDate wd.entry._lastMessageDate wd.DialogsPosToTopShift).1 = 0 := by
        simp [DialogPosFromDate, hnull]
      rw [hz]
      omega

/-- C2, amended, at an entry pinned with rank 1 and an unpinned entry dated five
seconds after the epoch, with the counter at its largest admitted value. -/
theorem pinned_key_gt_date_key_witness :
    ∃ wp' wd',
      updateChatListSortPosition envPlain
        (worldOf { entryFresh with _pinnedIndex := 1 } 0) = some wp' ∧
      updateChatListSortPosition envPlain
        (worldOf { entryFresh with _lastMessageDate := dateFive } 2147483646) = some wd' ∧
      wp'.entry._sortKeyInChatList = PinnedDialogPos 1 ∧
      wd'.entry._sortKeyInChatList = (DialogPosFromDate dateFive 2147483646).1 ∧
      wd'.entry._sortKeyInChatList < wp'.entry._sortKeyInChatList :=
  pinned_key_gt_date_key envPlain
    (worldOf { entryFresh with _pinnedIndex := 1 } 0)
    (worldOf { entryFresh with _lastMessageDate := dateFive } 2147483646)
    rfl (by decide) (by decide) rfl (by decide) (Or.inr (by decide))

/-- C3 fails as stated: of two pinned, unpromoted entries with ranks 1 and 2, the
entry with rank 1 gets the key `0xFFFFFFFF00000001` and the entry with rank 2
the key `0xFFFFFFFF00000002`, so the lower rank has the smaller key. -/
theorem lower_pinned_rank_not_greater_key :
    (updateChatListSortPosition envPlain
        (worldOf { entryFresh with _pinnedIndex := 1 } 0)).map
          (fun w => w.entry._sortKeyInChatList) = some 0xFFFFFFFF00000001 ∧
    (updateChatListSortPosition envPlain
        (worldOf { entryFresh with _pinnedIndex := 2 } 0)).map
          (fun w => w.entry._sortKeyInChatList) = some 0xFFFFFFFF00000002 ∧
    ¬ PinnedDialogPos 2 < PinnedDialogPos 1 := by
  decide

/-- C3, amended: for two pinned, unpromoted entries with ranks
`0 < r1 < r2 < 2^31`, `updateChatListSortPosition` returns on both and the key of
the entry with rank `r1` is strictly smaller than the key of the entry with rank
`r2` (the higher pinned index sorts higher). -/
theorem pinned_key_increases_with_rank (env : Env) (w1 w2 : World)
    (h1 : env.useProxyPromotion w1.entry = false)
    (h2 : env.useProxyPromotion w2.entry = false)
    (hpos : 0 < w1.entry._pinnedIndex)
    (hlt : w1.entry._pinnedIndex < w2.entry._pinnedIndex)
    (hint : w2.entry._pinnedIndex < 2 ^ 31) :
    ∃ w1' w2', updateChatListSortPosition env w1 = some w1' ∧
      updateChatListSortPosition env w2 = some w2' ∧
      w1'.entry._sortKeyInChatList = PinnedDialogPos w1.entry._pinnedIndex ∧
      w2'.entry._sortKeyInChatList = PinnedDialogPos w2.entry._pinnedIndex ∧
      w1'.entry._sortKeyInChatList < w2'.entry._sortKeyInChatList := by
  have hpos2 : 0 < w2.entry._pinnedIndex := by omega
  refine ⟨_, _, updateChatListSortPosition_eq env w1, updateChatListSortPosition_eq env w2,
    ?_, ?_, ?_⟩
  · simp [withSortKey, computeSortKey, h1, isPinnedDialog, hpos]
  · simp [withSortKey, computeSortKey, h2, isPinnedDialog, hpos2]
  · simp only [withSortKey, computeSortKey, h1, h2, isPinnedDialog, hpos, hpos2, decide_True,
      if_true, Bool.false_eq_true, if_false]
    rw [PinnedDialogPos_of_pos _ (by omega) (by omega),
      PinnedDialogPos_of_pos _ (by omega) hint]
    omega

/-- C3, amended, at ranks 1 and 2. -/
theorem pinned_key_increases_with_rank_witness :
    ∃ w1' w2',
      updateChatListSortPosition envPlain
        (worldOf { entryFresh with _pinnedIndex := 1 } 0) = some w1' ∧
      updateChatListSortPosition envPlain
        (worldOf { entryFresh with _pinnedIndex := 2 } 0) = some w2' ∧
      w1'.entry._sortKeyInChatList = PinnedDialogPos 1 ∧
      w2'.entry._sortKeyInChatList = PinnedDialogPos 2 ∧
      w1'.entry._sortKeyInChatList < w2'.entry._sortKeyInChatList :=
  pinned_key_increases_with_rank envPlain
    (worldOf { entryFresh with _pinnedIndex := 1 } 0)
    (worldOf { entryFresh with _pinnedIndex := 2 } 0)
    rfl rfl (by decide) (by decide) (by decide)

/-- C4 fails as stated: (1) with the counter at `-2`, two consecutive calls for
the same date return `2^64 - 1` and then `5 * 2^32`, so the later key is the
smaller one; (2) from the initial counter 0, a call for A, `2^32 - 1`
intervening calls and a call for B with the same date return equal keys. -/
theorem equal_second_keys_not_always_increasing :
    ((DialogPosFromDate dateFive (-2)).1 = 0xFFFFFFFFFFFFFFFF ∧
      (DialogPosFromDate dateFive
        (counterAfter [] (DialogPosFromDate dateFive (-2)).2)).1 = 0x500000000 ∧
      ¬ (DialogPosFromDate dateFive (-2)).1
          < (DialogPosFromDate dateFive
              (counterAfter [] (DialogPosFromDate dateFive (-2)).2)).1) ∧
    (DialogPosFromDate dateFive 0).1
      = (DialogPosFromDate dateFive
          (counterAfter (List.replicate (2 ^ 32 - 1) dateFive)
            (DialogPosFromDate dateFive 0).2)).1 := by
  refine ⟨by decide, ?_⟩
  have h1 : (DialogPosFromDate dateFive 0).2 = wrapInt32 1 := by decide
  rw [h1, counterAfter_replicate dateFive rfl]
  decide

/-- C4, amended: for two non-null dates with the same `toTime_t()` value, if
`DialogPosFromDate` is called for A with the counter at `c ≥ -1` and later, after
any intervening calls, for B, and the counter cannot pass `2^31 - 1` on the way
(`c` plus the number of intervening calls plus 2 is below `2^31`), then
key(A) < key(B) strictly. -/
theorem equal_second_keys_increase (dateA dateB : QDateTime) (between : List QDateTime)
    (c : Int)
    (hA : dateA.isNull = false) (hB : dateB.isNull = false)
    (hsame : dateA.toTime_t = dateB.toTime_t)
    (h0 : -1 ≤ c) (hroom : c + between.length + 2 < 2 ^ 31) :
    (DialogPosFromDate dateA c).1
      < (DialogPosFromDate dateB (counterAfter between (DialogPosFromDate dateA c).2)).1 := by
  rw [DialogPosFromDate_of_range dateA c hA h0 (by omega)]
  simp only []
  have hb := counterAfter_bounds between (c + 1) (by omega) (by omega)
  rw [DialogPosFromDate_of_range dateB _ hB (by omega) (by omega), hsame]
  simp only []
  omega

/-- C4, amended, at the initial counter 0 with one null and one non-null date
in between. -/
theorem equal_second_keys_increase_witness :
    (DialogPosFromDate dateFive 0).1
      < (DialogPosFromDate dateFive
          (counterAfter [dateNull, dateBeforeEpoch] (DialogPosFromDate dateFive 0).2)).1 :=
  equal_second_keys_increase dateFive dateFive [dateNull, dateBeforeEpoch] 0
    rfl rfl rfl (by decide) (by decide)

/-! Dates and membership -/

/-- C5 fails as stated: an entry dated five seconds after the epoch is given the
date one second after the epoch. Absent from the `Mode::All` list, the call
changes nothing (the claim says the date is accepted); present in it, the cached
date becomes the new date and the key is recomputed to `(1 << 32) | 1` (the
claim says the call is a no-op). -/
theorem earlier_date_not_as_claimed :
    setChatsListDate envPlain dateOne
        (worldOf { entryFresh with _lastMessageDate := dateFive } 0)
      = some (worldOf { entryFresh with _lastMessageDate := dateFive } 0) ∧
    (setChatsListDate envPlain dateOne
        (worldOf { entryFresh with _lastMessageDate := dateFive, linksAll := [(0, 11)] } 0)).map
          (fun w => (w.entry._lastMessageDate, w.entry._sortKeyInChatList))
      = some (dateOne, 0x100000001) := by
  decide

/-- C5, amended: for every entry whose cached last-message date is non-null and
every date strictly earlier than it: when the entry is absent from the
`Mode::All` list, `setChatsListDate` is a no-op (nothing changes); when the entry
is present in it, `setChatsListDate` returns, the cached date becomes the new
date and the sort key is the one recomputed for the new date. -/
theorem setChatsListDate_earlier (env : Env) (date : QDateTime) (w : World)
    (hnonnull : w.entry._lastMessageDate.isNull = false)
    (hearlier : date.msecs < w.entry._lastMessageDate.msecs) :
    (inChatList w.entry Mode.All = false → setChatsListDate env date w = some w) ∧
    (inChatList w.entry Mode.All = true →
      ∃ w', setChatsListDate env date w = some w' ∧
        w'.entry._lastMessageDate = date ∧
        w'.entry._sortKeyInChatList
          = (computeSortKey env { w.entry with _lastMessageDate := date }
              w.DialogsPosToTopShift).1 ∧
        w'.DialogsPosToTopShift
          = (computeSortKey env { w.entry with _lastMessageDate := date }
              w.DialogsPosToTopShift).2) := by
  have hge : w.entry._lastMessageDate.ge date = true := by
    simp only [QDateTime.ge, decide_eq_true_eq]
    omega
  constructor
  · intro hin
    simp [setChatsListDate, hnonnull, hge, hin]
  · intro hin
    have hcall : setChatsListDate env date w
        = updateChatListSortPosition env
            { w with entry := { w.entry with _lastMessageDate := date } } := by
      simp [setChatsListDate, hnonnull, hge, hin]
    rw [hcall]
    refine ⟨_, updateChatListSortPosition_eq env _, ?_, ?_, ?_⟩
    · simp [withSortKey]
    · simp [withSortKey]
    · simp

/-- C5, amended, at an entry dated five seconds after the epoch and the date one
second after the epoch. -/
theorem setChatsListDate_earlier_witness :
    (inChatList { entryFresh with _lastMessageDate := dateFive } Mode.All = false →
      setChatsListDate envPlain dateOne
          (worldOf { entryFresh with _lastMessageDate := dateFive } 0)
        = some (worldOf { entryFresh with _lastMessageDate := dateFive } 0)) ∧
    (inChatList { entryFresh with _lastMessageDate := dateFive } Mode.All = true →
      ∃ w', setChatsListDate envPlain dateOne
          (worldOf { entryFresh with _lastMessageDate := dateFive } 0) = some w' ∧
        w'.entry._lastMessageDate = dateOne ∧
        w'.entry._sortKeyInChatList
          = (computeSortKey envPlain
              { { entryFresh with _lastMessageDate := dateFive } with
                _lastMessageDate := dateOne } 0).1 ∧
        w'.DialogsPosToTopShift
          = (computeSortKey envPlain
              { { entryFresh with _lastMessageDate := dateFive } with
                _lastMessageDate := dateOne } 0).2) :=
  setChatsListDate_earlier envPlain dateOne
    (worldOf { entryFresh with _lastMessageDate := dateFive } 0) rfl (by decide)

theorem chatListLinks_setChatListLinks (e : Entry) (list : Mode) (links : RowsByLetter) :
    chatListLinks (setChatListLinks e list links) list = links := by
  cases list <;> rfl

theorem addToChatList_of_member {σ : Type} (ops : IndexedList σ) (list : Mode)
    (w : World) (indexed : σ) (row : Row)
    (h : (chatListLinks w.entry list).find 0 = some row) :
    addToChatList ops list w indexed = some (row, w, indexed) := by
  simp [addToChatList, inChatList, mainChatListLink, h]

/-- C6: for every entry, list and indexed collection, a second `addToChatList`
changes nothing and returns the same row: if the first call returns row `r`,
world `w1` and collection `s1`, the second call on `w1`, `s1` returns exactly
`r`, `w1`, `s1` (same link map, same collection, no further hook call), and the
two calls in sequence equal the single call also when the `Assert` fails; the
first call returns whenever `addToEnd` hands out a letter-0 row; and
`removeFromChatList` on an entry that is not in the list returns the world and
the collection unchanged. -/
theorem addToChatList_idempotent {σ : Type} (ops : IndexedList σ) (list : Mode)
    (w : World) (indexed : σ) :
    ((addToChatList ops list w indexed).bind
        (fun r => addToChatList ops list r.2.1 r.2.2)
      = addToChatList ops list w indexed) ∧
    (∀ r w1 s1, addToChatList ops list w indexed = some (r, w1, s1) →
      addToChatList ops list w1 s1 = some (r, w1, s1)) ∧
    ((ops.addToEnd indexed w.entry.keyId).1.find 0 ≠ none →
      ∃ r, addToChatList ops list w indexed = some r) ∧
    (inChatList w.entry list = false →
      removeFromChatList ops list w indexed = (w, indexed)) := by
  have hsecond : ∀ r w1 s1, addToChatList ops list w indexed = some (r, w1, s1) →
      addToChatList ops list w1 s1 = some (r, w1, s1) := by
    intro r w1 s1 h
    cases hfind : (chatListLinks w.entry list).find 0 with
    | some row =>
      rw [addToChatList_of_member ops list w indexed row hfind] at h
      cases h
      exact addToChatList_of_member ops list _ _ _ hfind
    | none =>
      simp only [addToChatList, inChatList, hfind, Option.isSome_none, Bool.not_false,
        if_true, mainChatListLink, World.emit, chatListLinks_setChatListLinks,
        Option.map_eq_some'] at h
      obtain ⟨row, hrow, heq⟩ := h
      cases heq
      apply addToChatList_of_member
      simpa [chatListLinks_setChatListLinks] using hrow
  refine ⟨?_, hsecond, ?_, ?_⟩
  · cases hcall : addToChatList ops list w indexed with
    | none => rfl
    | some r =>
      obtain ⟨row, w1, s1⟩ := r
      simpa using hsecond row w1 s1 hcall
  · intro hrow
    cases hfind : (chatListLinks w.entry list).find 0 with
    | some row => exact ⟨_, addToChatList_of_member ops list w indexed row hfind⟩
    | none =>
      obtain ⟨row, hrow'⟩ := Option.ne_none_iff_exists'.mp hrow
      simp [addToChatList, inChatList, hfind, mainChatListLink, World.emit,
        chatListLinks_setChatListLinks, hrow']
  · intro hout
    simp [removeFromChatList, hout]

/-- C6, at a fresh entry and the collection `[3, 4]`: the first call appends key
7, hands out row 2 and fires the hook once; the second call returns the same;
`removeFromChatList` before any insertion changes nothing. -/
theorem addToChatList_idempotent_witness :
    addToChatList keyList Mode.All (worldOf entryFresh 0) [3, 4]
      = some (2,
          { worldOf { entryFresh with linksAll := [(0, 2)] } 0 with
            log := [Event.changedInChatListHook Mode.All true] },
          [3, 4, 7]) ∧
    (((addToChatList keyList Mode.All (worldOf entryFresh 0) [3, 4]).bind
        (fun r => addToChatList keyList Mode.All r.2.1 r.2.2)
      = addToChatList keyList Mode.All (worldOf entryFresh 0) [3, 4]) ∧
    (∀ r w1 s1, addToChatList keyList Mode.All (worldOf entryFresh 0) [3, 4]
        = some (r, w1, s1) →
      addToChatList keyList Mode.All w1 s1 = some (r, w1, s1)) ∧
    ((keyList.addToEnd [3, 4] (worldOf entryFresh 0).entry.keyId).1.find 0 ≠ none →
      ∃ r, addToChatList keyList Mode.All (worldOf entryFresh 0) [3, 4] = some r) ∧
    (inChatList (worldOf entryFresh 0).entry Mode.All = false →
      removeFromChatList keyList Mode.All (worldOf entryFresh 0) [3, 4]
        = (worldOf entryFresh 0, [3, 4]))) :=
  ⟨by decide, addToChatList_idempotent keyList Mode.All (worldOf entryFresh 0) [3, 4]⟩



theorem pinHookCount_append (a b : List Event) :
    pinHookCount (a ++ b) = pinHookCount a + pinHookCount b := by
  simp [pinHookCount]

theorem pinHookCount_repaintEvents (env : Env) (e : Entry) :
    pinHookCount (repaintEvents env e) = 0 := by
  unfold repaintEvents pinHookCount
  cases env.hasMain
  · simp
  · cases mainChatListLink e Mode.All with
    | none => simp
    | some rowAll =>
      cases mainChatListLink e Mode.Important <;> simp [List.count_cons]

theorem pinHookCount_existenceEvents (env : Env) (b : Bool) (e : Entry) :
    pinHookCount (existenceEvents env b e) = 0 := by
  unfold existenceEvents
  cases env.hasMain
  · simp [pinHookCount]
  · cases (b && e._sortKeyInChatList != 0)
    · simp [pinHookCount, List.count_cons]
    · have := pinHookCount_repaintEvents env e
      simp only [pinHookCount] at this
      simp [pinHookCount, List.count_cons, this]

theorem pinHookCount_sortPositionEvents (env : Env) (w : World) :
    pinHookCount (sortPositionEvents env w) = 0 := by
  unfold sortPositionEvents
  split
  · exact pinHookCount_existenceEvents env true _
  · rfl

theorem emit_if (c : Bool) (w : World) (ev : Event) :
    (if c = true then w.emit ev else w)
      = { w with log := w.log ++ (if c = true then [ev] else []) } := by
  cases c <;> simp [World.emit]

theorem cachePinnedIndex_spec (env : Env) (index : Int) (w : World) :
    ∃ w', cachePinnedIndex env index w = some w' ∧
      w'.entry._pinnedIndex = index ∧
      w'.entry.keyId = w.entry.keyId ∧
      w'.entry._isProxyPromoted = w.entry._isProxyPromoted ∧
      w'.settings.pinned
        = (if w.entry._pinnedIndex = index then w.settings.pinned
           else setValue w.settings.pinned w.entry.keyId index) ∧
      w'.settings.favorites = w.settings.favorites ∧
      pinHookCount w'.log
        = pinHookCount w.log
          + (if isPinnedDialog w.entry != isPinnedDialog w'.entry then 1 else 0) := by
  by_cases h : w.entry._pinnedIndex = index
  · refine ⟨w, ?_, h, rfl, rfl, ?_, rfl, ?_⟩
    · simp [cachePinnedIndex, h]
    · simp [h]
    · simp
  · simp only [cachePinnedIndex, bne_iff_ne, ne_eq, h, not_false_eq_true, if_true,
      updateChatListSortPosition_eq, updateChatListEntry_eq, Option.some_bind]
    refine ⟨_, rfl, ?_, ?_, ?_, ?_, ?_, ?_⟩
    · split <;> rfl
    · split <;> rfl
    · split <;> rfl
    · split <;> simp [withSortKey, World.emit]
    · split <;> rfl
    · have hone : pinHookCount [Event.changedChatListPinHook] = 1 := rfl
      split
      · rename_i hch
        simp [World.emit, pinHookCount_append, pinHookCount_sortPositionEvents,
          pinHookCount_repaintEvents, hch, hone]
      · rename_i hch
        simp [pinHookCount_append, pinHookCount_sortPositionEvents,
          pinHookCount_repaintEvents, hch]

theorem value_setValue {α : Type} (group : List (Nat × α)) (key : Nat) (v : α) :
    value (setValue group key v) key = some v := by
  simp [value, setValue, List.lookup]

theorem value_remove {α : Type} (group : List (Nat × α)) (key : Nat) :
    value (remove group key) key = none := by
  induction group with
  | nil => rfl
  | cons p rest ih =>
    obtain ⟨k, v⟩ := p
    by_cases hk : k = key
    · simpa [remove, List.filter_cons, hk] using ih
    · have hk' : (key == k) = false := by
        simp only [beq_eq_false_iff_ne, ne_eq]
        exact fun h => hk h.symm
      simpa [remove, value, List.filter_cons, hk, List.lookup, hk'] using ih

theorem cachePinnedIndex_inSync (env : Env) (index : Int) (w : World)
    (hsync : pinnedInSync w) :
    ∃ w', cachePinnedIndex env index w = some w' ∧ pinnedInSync w' ∧
      w'.entry._pinnedIndex = index ∧ w'.entry.keyId = w.entry.keyId := by
  obtain ⟨w', hcall, hidx, hkey, -, hpinned, -, -⟩ := cachePinnedIndex_spec env index w
  refine ⟨w', hcall, ?_, hidx, hkey⟩
  unfold pinnedInSync at hsync ⊢
  rw [hpinned, hkey, hidx]
  split
  · rename_i h
    rw [← hsync, h]
  · rw [value_setValue]
    rfl

theorem cachePinnedIndexAll_inSync (env : Env) (ranks : List Int) (w : World)
    (hsync : pinnedInSync w) :
    ∃ w', cachePinnedIndexAll env ranks w = some w' ∧ pinnedInSync w' ∧
      w'.entry.keyId = w.entry.keyId := by
  induction ranks generalizing w with
  | nil => exact ⟨w, rfl, hsync, rfl⟩
  | cons index rest ih =>
    obtain ⟨w1, hcall, hsync1, -, hkey⟩ := cachePinnedIndex_inSync env index w hsync
    obtain ⟨w2, hrest, hsync2, hkey2⟩ := ih w1 hsync1
    exact ⟨w2, by simp [cachePinnedIndexAll, hcall, hrest], hsync2, hkey2.trans hkey⟩

theorem cachePinnedIndexAll_append (env : Env) (ranks : List Int) (index : Int) (w : World) :
    cachePinnedIndexAll env (ranks ++ [index]) w
      = (cachePinnedIndexAll env ranks w).bind (cachePinnedIndex env index) := by
  induction ranks generalizing w with
  | nil => simp [cachePinnedIndexAll]
  | cons r rest ih =>
    cases hcall : cachePinnedIndex env r w with
    | none => simp [cachePinnedIndexAll, hcall]
    | some w1 => simp [cachePinnedIndexAll, hcall, ih]

theorem loadIsFavorite_rest (id : Nat) (w : World) :
    (loadIsFavorite id w).entry._pinnedIndex = w.entry._pinnedIndex ∧
      (loadIsFavorite id w).entry.keyId = w.entry.keyId ∧
      (loadIsFavorite id w).settings = w.settings := by
  unfold loadIsFavorite
  split <;> simp

theorem loadPinnedIndex_spec (id : Nat) (w : World) :
    (loadPinnedIndex id w).entry._pinnedIndex = (value w.settings.pinned id).getD 0 ∧
      (loadPinnedIndex id w).entry.keyId = w.entry.keyId ∧
      (loadPinnedIndex id w).settings = w.settings := by
  unfold loadPinnedIndex
  simp only []
  split <;> simp [World.emit]

theorem construct_inSync (id : Nat) (init : Entry) (w : World) :
    pinnedInSync (construct id id init w) ∧ (construct id id init w).entry.keyId = id := by
  unfold construct pinnedInSync
  obtain ⟨hp, hk, hs⟩ := loadPinnedIndex_spec id
    (loadIsFavorite id { w with entry := { init with keyId := id } })
  obtain ⟨-, hk', hs'⟩ := loadIsFavorite_rest id { w with entry := { init with keyId := id } }
  rw [hp, hk, hs, hk']
  exact ⟨rfl, rfl⟩

/-! Persistence -/

theorem construct_pinnedIndex (key id : Nat) (init : Entry) (w : World) :
    (construct key id init w).entry._pinnedIndex = (value w.settings.pinned id).getD 0 := by
  unfold construct
  rw [(loadPinnedIndex_spec id _).1, (loadIsFavorite_rest id _).2.2]

theorem loadIsFavorite_spec (id : Nat) (w : World) :
    (loadIsFavorite id w).entry._isFavorite = (value w.settings.favorites id).getD false := by
  unfold loadIsFavorite contains
  cases hv : value w.settings.favorites id <;> simp

/-- C7: with the "pinned" group as an explicit map, for an entry constructed
with `id` equal to its key's id, after any sequence of `cachePinnedIndex` calls
ending with rank `i`: every call has returned, the entry holds rank `i`, the
store reads as `i` under `id`, and a reload by `loadPinnedIndex(id)` from that
store yields `_pinnedIndex = i` whatever the entry held before the reload, as
does the construction of a new entry with that id. A call with a rank other
than the entry's stores that rank under the entry's key; a call with the rank
the entry already has changes nothing (writes nothing); and an absent key
reloads as rank 0 into any entry. -/
theorem pinned_rank_round_trip (env : Env) (id : Nat) (init : Entry) (w : World)
    (ranks : List Int) (i : Int) :
    (∃ w', cachePinnedIndexAll env (ranks ++ [i]) (construct id id init w) = some w' ∧
      w'.entry._pinnedIndex = i ∧
      (value w'.settings.pinned id).getD 0 = i ∧
      (loadPinnedIndex id w').entry._pinnedIndex = i ∧
      (∀ e, (loadPinnedIndex id { w' with entry := e }).entry._pinnedIndex = i) ∧
      (∀ key init', (construct key id init' w').entry._pinnedIndex = i)) ∧
    (w.entry._pinnedIndex ≠ i →
      ∃ w', cachePinnedIndex env i w = some w' ∧
        value w'.settings.pinned w.entry.keyId = some i ∧
        (∀ e, (loadPinnedIndex w.entry.keyId { w' with entry := e }).entry._pinnedIndex = i)) ∧
    cachePinnedIndex env w.entry._pinnedIndex w = some w ∧
    (value w.settings.pinned id = none →
      (loadPinnedIndex id w).entry._pinnedIndex = 0 ∧
      (∀ e, (loadPinnedIndex id { w with entry := e }).entry._pinnedIndex = 0)) := by
  refine ⟨?_, ?_, ?_, ?_⟩
  · obtain ⟨hsync0, hkey0⟩ := construct_inSync id init w
    obtain ⟨w1, hall, hsync1, hkey1⟩ :=
      cachePinnedIndexAll_inSync env ranks (construct id id init w) hsync0
    obtain ⟨w2, hcall, hsync2, hidx, hkey2⟩ := cachePinnedIndex_inSync env i w1 hsync1
    have hid : w2.entry.keyId = id := by rw [hkey2, hkey1, hkey0]
    have hstore : (value w2.settings.pinned id).getD 0 = i := by
      rw [← hid, ← hsync2, hidx]
    refine ⟨w2, ?_, hidx, hstore, ?_, ?_, ?_⟩
    · rw [cachePinnedIndexAll_append, hall]
      exact hcall
    · rw [(loadPinnedIndex_spec id w2).1, hstore]
    · intro e
      rw [(loadPinnedIndex_spec id _).1]
      exact hstore
    · intro key init'
      rw [construct_pinnedIndex]
      exact hstore
  · intro hne
    obtain ⟨w', hcall, -, -, -, hpinned, -, -⟩ := cachePinnedIndex_spec env i w
    rw [if_neg hne] at hpinned
    have hstored : value w'.settings.pinned w.entry.keyId = some i := by
      rw [hpinned, value_setValue]
    refine ⟨w', hcall, hstored, ?_⟩
    intro e
    rw [(loadPinnedIndex_spec _ _).1]
    simp only []
    rw [hstored]
    rfl
  · simp [cachePinnedIndex]
  · intro habsent
    refine ⟨?_, ?_⟩
    · rw [(loadPinnedIndex_spec id w).1, habsent]
      rfl
    · intro e
      rw [(loadPinnedIndex_spec id _).1]
      simp only []
      rw [habsent]
      rfl

/-- C7, at an entry with key 7 constructed over a store holding rank 2 for key
7, which the construction reads; the entry is then given the ranks 2 (the rank
it already has), 0, 5 and finally 3, after which the store holds 3 under key 7
and a fresh entry reloads as 3; a first write of rank 4 over an empty store is
read back as 4 by a fresh entry; and at an empty store key 7 reloads as 0. -/
theorem pinned_rank_round_trip_witness :
    (construct 7 7 entryFresh worldStored).entry._pinnedIndex = 2 ∧
    ((cachePinnedIndexAll envPlain ([2, 0, 5] ++ [3])
        (construct 7 7 entryFresh worldStored)).map
          (fun w => (w.entry._pinnedIndex, w.settings.pinned,
            (loadPinnedIndex 7 { w with entry := entryFresh }).entry._pinnedIndex))
      = some (3, [(7, 3)], 3)) ∧
    ((∃ w', cachePinnedIndexAll envPlain ([2, 0, 5] ++ [3])
          (construct 7 7 entryFresh worldStored) = some w' ∧
        w'.entry._pinnedIndex = 3 ∧
        (value w'.settings.pinned 7).getD 0 = 3 ∧
        (loadPinnedIndex 7 w').entry._pinnedIndex = 3 ∧
        (∀ e, (loadPinnedIndex 7 { w' with entry := e }).entry._pinnedIndex = 3) ∧
        (∀ key init', (construct key 7 init' w').entry._pinnedIndex = 3)) ∧
      (worldStored.entry._pinnedIndex ≠ 3 →
        ∃ w', cachePinnedIndex envPlain 3 worldStored = some w' ∧
          value w'.settings.pinned worldStored.entry.keyId = some 3 ∧
          (∀ e, (loadPinnedIndex worldStored.entry.keyId
            { w' with entry := e }).entry._pinnedIndex = 3)) ∧
      cachePinnedIndex envPlain worldStored.entry._pinnedIndex worldStored = some worldStored ∧
      (value worldStored.settings.pinned 7 = none →
        (loadPinnedIndex 7 worldStored).entry._pinnedIndex = 0 ∧
        (∀ e, (loadPinnedIndex 7 { worldStored with entry := e }).entry._pinnedIndex = 0))) ∧
    (∃ w', cachePinnedIndex envPlain 4 (worldOf entryFresh 0) = some w' ∧
      value w'.settings.pinned 7 = some 4 ∧
      (∀ e, (loadPinnedIndex 7 { w' with entry := e }).entry._pinnedIndex = 4)) ∧
    value (worldOf entryFresh 0).settings.pinned 7 = none ∧
    ((loadPinnedIndex 7 (worldOf entryFresh 0)).entry._pinnedIndex = 0 ∧
      (∀ e, (loadPinnedIndex 7
        { worldOf entryFresh 0 with entry := e }).entry._pinnedIndex = 0)) :=
  ⟨by decide, by decide,
    pinned_rank_round_trip envPlain 7 entryFresh worldStored [2, 0, 5] 3,
    (pinned_rank_round_trip envPlain 7 entryFresh (worldOf entryFresh 0) [] 4).2.1 (by decide),
    rfl,
    (pinned_rank_round_trip envPlain 7 entryFresh (worldOf entryFresh 0) [] 0).2.2.2 rfl⟩

/-- C8: with the "favorites" group as an explicit map: on a favorite entry
`setIsFavoriteDialog(false)`, and likewise `toggleIsFavoriteDialog`, leaves no
value under the entry's key (no `false` is stored), so that `loadIsFavorite` for
that id from the resulting store yields not-favorite, whatever the entry held
before the load; on a non-favorite entry `setIsFavoriteDialog(true)` stores
`true` under the key, and `loadIsFavorite` from the resulting store yields
favorite, whatever the entry held before the load; a call with the value the
entry already has changes nothing; and no `setIsFavoriteDialog` call changes
`_pinnedIndex` or `_sortKeyInChatList`. -/
theorem favorite_flag_persistence (w : World) :
    (w.entry._isFavorite = true →
      value (setIsFavoriteDialog false w).settings.favorites w.entry.keyId = none ∧
      (∀ v, (w.entry.keyId, v) ∉ (setIsFavoriteDialog false w).settings.favorites) ∧
      (loadIsFavorite w.entry.keyId (setIsFavoriteDialog false w)).entry._isFavorite = false ∧
      (∀ e, (loadIsFavorite w.entry.keyId
        { setIsFavoriteDialog false w with entry := e }).entry._isFavorite = false) ∧
      toggleIsFavoriteDialog w = setIsFavoriteDialog false w) ∧
    (w.entry._isFavorite = false →
      value (setIsFavoriteDialog true w).settings.favorites w.entry.keyId = some true ∧
      (loadIsFavorite w.entry.keyId (setIsFavoriteDialog true w)).entry._isFavorite = true ∧
      (∀ e, (loadIsFavorite w.entry.keyId
        { setIsFavoriteDialog true w with entry := e }).entry._isFavorite = true) ∧
      toggleIsFavoriteDialog w = setIsFavoriteDialog true w) ∧
    setIsFavoriteDialog w.entry._isFavorite w = w ∧
    (∀ b, (setIsFavoriteDialog b w).entry._pinnedIndex = w.entry._pinnedIndex ∧
      (setIsFavoriteDialog b w).entry._sortKeyInChatList = w.entry._sortKeyInChatList) := by
  refine ⟨?_, ?_, ?_, ?_⟩
  · intro hfav
    have hset : (setIsFavoriteDialog false w).settings.favorites
        = remove w.settings.favorites w.entry.keyId := by
      simp [setIsFavoriteDialog, hfav]
    have hgone : value (setIsFavoriteDialog false w).settings.favorites w.entry.keyId
        = none := by
      rw [hset, value_remove]
    refine ⟨hgone, ?_, ?_, ?_, ?_⟩
    · intro v hmem
      rw [hset] at hmem
      simp [remove] at hmem
    · rw [loadIsFavorite_spec, hgone]
      rfl
    · intro e
      rw [loadIsFavorite_spec]
      simp only []
      rw [hgone]
      rfl
    · simp [toggleIsFavoriteDialog, hfav]
  · intro hfav
    have hset : (setIsFavoriteDialog true w).settings.favorites
        = setValue w.settings.favorites w.entry.keyId true := by
      simp [setIsFavoriteDialog, hfav]
    have hstored : value (setIsFavoriteDialog true w).settings.favorites w.entry.keyId
        = some true := by
      rw [hset, value_setValue]
    refine ⟨hstored, ?_, ?_, ?_⟩
    · rw [loadIsFavorite_spec, hstored]
      rfl
    · intro e
      rw [loadIsFavorite_spec]
      simp only []
      rw [hstored]
      rfl
    · simp [toggleIsFavoriteDialog, hfav]
  · simp [setIsFavoriteDialog]
  · intro b
    cases b <;> cases h : w.entry._isFavorite <;> simp [setIsFavoriteDialog, h]

/-- C8, at a favorite entry with key 7 stored as favorite, which is cleared (the
store is then empty and a favorite-flagged entry loads as not favorite), and at
a fresh entry with key 7 over an empty store, which is made favorite (the store
then holds `true` under key 7 and a fresh entry loads as favorite). -/
theorem favorite_flag_persistence_witness :
    ((setIsFavoriteDialog false worldFavorite).settings.favorites = [] ∧
      (loadIsFavorite 7 { setIsFavoriteDialog false worldFavorite with
        entry := { entryFresh with _isFavorite := true } }).entry._isFavorite = false ∧
      (setIsFavoriteDialog true (worldOf entryFresh 0)).settings.favorites = [(7, true)] ∧
      (loadIsFavorite 7 { setIsFavoriteDialog true (worldOf entryFresh 0) with
        entry := entryFresh }).entry._isFavorite = true) ∧
    (worldFavorite.entry._isFavorite = true ∧
      value (setIsFavoriteDialog false worldFavorite).settings.favorites 7 = none ∧
      (∀ v, (7, v) ∉ (setIsFavoriteDialog false worldFavorite).settings.favorites) ∧
      (loadIsFavorite 7 (setIsFavoriteDialog false worldFavorite)).entry._isFavorite = false ∧
      (∀ e, (loadIsFavorite 7
        { setIsFavoriteDialog false worldFavorite with entry := e }).entry._isFavorite
          = false) ∧
      toggleIsFavoriteDialog worldFavorite = setIsFavoriteDialog false worldFavorite) ∧
    ((worldOf entryFresh 0).entry._isFavorite = false ∧
      value (setIsFavoriteDialog true (worldOf entryFresh 0)).settings.favorites 7 = some true ∧
      (loadIsFavorite 7 (setIsFavoriteDialog true (worldOf entryFresh 0))).entry._isFavorite
        = true ∧
      (∀ e, (loadIsFavorite 7
        { setIsFavoriteDialog true (worldOf entryFresh 0) with entry := e }).entry._isFavorite
          = true) ∧
      toggleIsFavoriteDialog (worldOf entryFresh 0)
        = setIsFavoriteDialog true (worldOf entryFresh 0)) :=
  ⟨by decide,
    ⟨rfl, (favorite_flag_persistence worldFavorite).1 rfl⟩,
    ⟨rfl, (favorite_flag_persistence (worldOf entryFresh 0)).2.1 rfl⟩⟩

/-! Hooks and requests to the list owner -/

theorem cacheProxyPromoted_spec (env : Env) (promoted : Bool) (w : World) :
    ∃ w', cacheProxyPromoted env promoted w = some w' ∧
      w'.entry._isProxyPromoted = promoted ∧
      w'.entry._pinnedIndex = w.entry._pinnedIndex ∧
      pinHookCount w'.log = pinHookCount w.log := by
  by_cases h : w.entry._isProxyPromoted = promoted
  · exact ⟨w, by simp [cacheProxyPromoted, h], h, rfl, rfl⟩
  · simp only [cacheProxyPromoted, bne_iff_ne, ne_eq, h, not_false_eq_true, if_true,
      updateChatListSortPosition_eq, updateChatListEntry_eq, Option.some_bind,
      updateChatListExistence_eq]
    cases promoted
    · refine ⟨_, rfl, rfl, rfl, ?_⟩
      simp [withSortKey, pinHookCount_append, pinHookCount_sortPositionEvents,
        pinHookCount_repaintEvents, pinHookCount_existenceEvents]
    · refine ⟨_, rfl, rfl, rfl, ?_⟩
      simp [withSortKey, pinHookCount_append, pinHookCount_sortPositionEvents,
        pinHookCount_repaintEvents]

/-- C9 fails as stated: `cacheProxyPromoted(true)` on a fresh entry (unpinned,
not promoted) moves it into promoted status, returns with the flag set, and the
only call it makes is `createDialog`: `changedChatListPinHook` is not fired. -/
theorem promotion_does_not_fire_pin_hook :
    (isPinnedDialog entryFresh || entryFresh._isProxyPromoted) = false ∧
    (cacheProxyPromoted envPlain true (worldOf entryFresh 0)).map
        (fun w => (isPinnedDialog w.entry || w.entry._isProxyPromoted, w.log))
      = some (true, [Event.createDialog 7]) ∧
    Event.changedChatListPinHook ∉ [Event.createDialog 7] := by
  decide

/-- C9, amended: with hook calls as an event log, for every entry state:
`cachePinnedIndex` returns and fires `changedChatListPinHook` exactly once when
`pinnedIndex > 0` before the call differs from after and not otherwise, so it
fires on every call that moves the entry into or out of pinned-or-promoted
status; `cacheProxyPromoted` returns and never fires it, whatever the
transition; `addToChatList` and `removeFromChatList` never fire it. -/
theorem pin_hook_fired_by_pin_change_only {σ : Type} (env : Env) (ops : IndexedList σ)
    (w : World) :
    (∀ index, ∃ w', cachePinnedIndex env index w = some w' ∧
      pinHookCount w'.log
        = pinHookCount w.log
          + (if isPinnedDialog w.entry != isPinnedDialog w'.entry then 1 else 0) ∧
      ((isPinnedDialog w.entry || w.entry._isProxyPromoted)
          ≠ (isPinnedDialog w'.entry || w'.entry._isProxyPromoted) →
        pinHookCount w'.log = pinHookCount w.log + 1)) ∧
    (∀ promoted, ∃ w', cacheProxyPromoted env promoted w = some w' ∧
      pinHookCount w'.log = pinHookCount w.log) ∧
    (∀ list indexed r, addToChatList ops list w indexed = some r →
      pinHookCount r.2.1.log = pinHookCount w.log) ∧
    (∀ list indexed,
      pinHookCount (removeFromChatList ops list w indexed).1.log = pinHookCount w.log) := by
  refine ⟨?_, ?_, ?_, ?_⟩
  · intro index
    obtain ⟨w', hcall, -, -, hpromo, -, -, hcount⟩ := cachePinnedIndex_spec env index w
    refine ⟨w', hcall, hcount, ?_⟩
    intro hchange
    rw [hcount]
    rw [hpromo] at hchange
    have hpin : isPinnedDialog w.entry ≠ isPinnedDialog w'.entry := by
      intro heq
      rw [heq] at hchange
      exact hchange rfl
    simp [hpin]
  · intro promoted
    obtain ⟨w', hcall, -, -, hcount⟩ := cacheProxyPromoted_spec env promoted w
    exact ⟨w', hcall, hcount⟩
  · intro list indexed r hcall
    unfold addToChatList at hcall
    simp only [Option.map_eq_some'] at hcall
    obtain ⟨row, -, heq⟩ := hcall
    rw [← heq]
    simp only []
    split
    · simp [World.emit, pinHookCount, List.count_cons]
    · rfl
  · intro list indexed
    unfold removeFromChatList
    split
    · simp [World.emit, pinHookCount, List.count_cons]
    · rfl

/-- C9, amended, at a fresh entry that is pinned with rank 1: the call moves it
into pinned-or-promoted status and the hook is fired once. -/
theorem pin_hook_fired_by_pin_change_only_witness :
    ∃ w', cachePinnedIndex envPlain 1 (worldOf entryFresh 0) = some w' ∧
      (isPinnedDialog (worldOf entryFresh 0).entry || (worldOf entryFresh 0).entry._isProxyPromoted)
        ≠ (isPinnedDialog w'.entry || w'.entry._isProxyPromoted) ∧
      pinHookCount w'.log = pinHookCount (worldOf entryFresh 0).log + 1 := by
  obtain ⟨w', hcall, -, hfire⟩ :=
    (pin_hook_fired_by_pin_change_only envPlain keyList (worldOf entryFresh 0)).1 1
  have hafter : (cachePinnedIndex envPlain 1 (worldOf entryFresh 0)).map
      (fun w => isPinnedDialog w.entry || w.entry._isProxyPromoted) = some true := by
    decide
  rw [hcall] at hafter
  have hstatus : (isPinnedDialog w'.entry || w'.entry._isProxyPromoted) = true := by
    simpa using hafter
  have hchange : (isPinnedDialog (worldOf entryFresh 0).entry
      || (worldOf entryFresh 0).entry._isProxyPromoted)
        ≠ (isPinnedDialog w'.entry || w'.entry._isProxyPromoted) := by
    rw [hstatus]
    decide
  exact ⟨w', hcall, hchange, hfire hchange⟩

theorem removeDialog_not_mem_repaintEvents (env : Env) (e : Entry) (k : Nat) :
    Event.removeDialog k ∉ repaintEvents env e := by
  unfold repaintEvents
  cases env.hasMain
  · simp
  · cases mainChatListLink e Mode.All with
    | none => simp
    | some rowAll => cases mainChatListLink e Mode.Important <;> simp

/-- C10 fails as stated: for a fresh entry (null date, unpinned, not promoted)
that should be in the chat list, with the list owner available,
`updateChatListSortPosition` stores the key 0 and its only call to the owner is
`removeDialog` for the entry's key. -/
theorem null_date_entry_is_removed :
    (computeSortKey envPlain entryFresh 0).1 = 0 ∧
    envPlain.shouldBeInChatList entryFresh = true ∧
    (updateChatListSortPosition envPlain (worldOf entryFresh 0)).map
        (fun w => (w.entry._sortKeyInChatList, w.log))
      = some (0, [Event.removeDialog 7]) := by
  decide

/-- C10, amended: with calls to the list owner as an event log and the owner
available, for every entry state `updateChatListSortPosition` returns, stores
the recomputed key, requests `createDialog` when that key is non-zero and
`shouldBeInChatList()` is true, and requests `removeDialog` (of this entry's key
only) exactly when the recomputed key is zero and `needUpdateInChatList()`
holds; an entry whose recomputed key is non-zero is not removed by the
recomputation. -/
theorem sort_position_requests (env : Env) (w : World) (hmain : env.hasMain = true) :
    ∃ w' evs, updateChatListSortPosition env w = some w' ∧
      w'.log = w.log ++ evs ∧
      w'.entry._sortKeyInChatList = (computeSortKey env w.entry w.DialogsPosToTopShift).1 ∧
      (w'.entry._sortKeyInChatList ≠ 0 → env.shouldBeInChatList w'.entry = true →
        Event.createDialog w.entry.keyId ∈ evs) ∧
      (∀ k, Event.removeDialog k ∈ evs ↔
        (k = w.entry.keyId ∧ w'.entry._sortKeyInChatList = 0 ∧
          needUpdateInChatList env w'.entry = true)) := by
  have hkid : (withSortKey env w).keyId = w.entry.keyId := rfl
  refine ⟨_, sortPositionEvents env w, updateChatListSortPosition_eq env w, rfl, rfl, ?_, ?_⟩
  · intro hkey hshould
    simp only [] at hkey hshould
    unfold sortPositionEvents existenceEvents
    rw [← hkid]
    generalize withSortKey env w = e at hkey hshould ⊢
    simp [needUpdateInChatList, hshould, hmain, hkey]
  · intro k
    simp only []
    have hnot := removeDialog_not_mem_repaintEvents env (withSortKey env w) k
    unfold sortPositionEvents existenceEvents
    rw [← hkid]
    generalize withSortKey env w = e at hnot ⊢
    cases hneed : needUpdateInChatList env e
    · simp
    · by_cases hk : e._sortKeyInChatList = 0
      · simp [hmain, hk]
      · simp [hmain, hk, hnot]

/-- C10, amended, at an entry dated five seconds after the epoch that should be
in the chat list: the key is non-zero, `createDialog` is requested and no
`removeDialog`. -/
theorem sort_position_requests_witness :
    ∃ w' evs,
      updateChatListSortPosition envPlain
        (worldOf { entryFresh with _lastMessageDate := dateFive } 0) = some w' ∧
      w'.log = (worldOf { entryFresh with _lastMessageDate := dateFive } 0).log ++ evs ∧
      w'.entry._sortKeyInChatList
        = (computeSortKey envPlain { entryFresh with _lastMessageDate := dateFive } 0).1 ∧
      (w'.entry._sortKeyInChatList ≠ 0 → envPlain.shouldBeInChatList w'.entry = true →
        Event.createDialog 7 ∈ evs) ∧
      (∀ k, Event.removeDialog k ∈ evs ↔
        (k = 7 ∧ w'.entry._sortKeyInChatList = 0 ∧
          needUpdateInChatList envPlain w'.entry = true)) :=
  sort_position_requests envPlain
    (worldOf { entryFresh with _lastMessageDate := dateFive } 0) rfl

/-! Membership and the canonical row -/

theorem chatListLinks_setChatListLinks_other (e : Entry) (list other : Mode)
    (links : RowsByLetter) (h : other ≠ list) :
    chatListLinks (setChatListLinks e list links) other = chatListLinks e other := by
  cases list <;> cases other <;> first | rfl | exact absurd rfl h

theorem find_zero_remove (links : RowsByLetter) (letter : Nat) (h : letter ≠ 0) :
    RowsByLetter.find (RowsByLetter.remove links letter) 0 = RowsByLetter.find links 0 := by
  induction links with
  | nil => rfl
  | cons p rest ih =>
    obtain ⟨k, row⟩ := p
    by_cases hk : k = letter
    · have hk0 : ¬ k = 0 := fun h0 => h (hk ▸ h0)
      have hrest : RowsByLetter.find ((k, row) :: rest) 0 = RowsByLetter.find rest 0 := by
        simp [RowsByLetter.find, List.find?_cons, hk0]
      rw [hrest, ← ih]
      simp [RowsByLetter.remove, List.filter_cons, hk]
    · by_cases hk0 : k = 0
      · subst hk0
        have hne : ¬ 0 = letter := fun h0 => h h0.symm
        simp [RowsByLetter.remove, RowsByLetter.find, List.filter_cons, hne, List.find?_cons]
      · have hrest : RowsByLetter.find ((k, row) :: rest) 0 = RowsByLetter.find rest 0 := by
          simp [RowsByLetter.find, List.find?_cons, hk0]
        rw [hrest, ← ih]
        simp [RowsByLetter.remove, RowsByLetter.find, List.filter_cons, hk, List.find?_cons, hk0]

theorem find_zero_emplace (links : RowsByLetter) (letter : Nat) (row : Row)
    (h : (RowsByLetter.find links 0).isSome = true) :
    RowsByLetter.find (RowsByLetter.emplace links letter row) 0 = RowsByLetter.find links 0 := by
  unfold RowsByLetter.emplace
  split
  · rfl
  · obtain ⟨r, hr⟩ := Option.isSome_iff_exists.mp h
    simp only [RowsByLetter.find, Option.map_eq_some'] at hr
    obtain ⟨p, hp, -⟩ := hr
    simp [RowsByLetter.find, List.find?_append, hp]

theorem find_zero_isSome_iff (links : RowsByLetter) :
    (RowsByLetter.find links 0).isSome = true ↔ ∃ row, (0, row) ∈ links := by
  simp only [RowsByLetter.find, Option.isSome_map', List.find?_isSome]
  constructor
  · rintro ⟨⟨k, row⟩, hmem, hk⟩
    have : k = 0 := by simpa using hk
    exact ⟨row, this ▸ hmem⟩
  · rintro ⟨row, hmem⟩
    exact ⟨(0, row), hmem, by simp⟩

theorem find_zero_mem (links : RowsByLetter) (row : Row)
    (h : RowsByLetter.find links 0 = some row) : (0, row) ∈ links := by
  simp only [RowsByLetter.find, Option.map_eq_some'] at h
  obtain ⟨⟨k, r⟩, hp, hr⟩ := h
  have hk : k = 0 := by simpa using List.find?_some hp
  have hr' : r = row := hr
  rw [← hk, ← hr']
  exact List.mem_of_find?_eq_some hp

theorem linksAnchored_set (e : Entry) (list : Mode) (links : RowsByLetter)
    (h : linksAnchored e)
    (hlinks : links = [] ∨ (RowsByLetter.find links 0).isSome = true) :
    linksAnchored (setChatListLinks e list links) := by
  intro other
  by_cases ho : other = list
  · subst ho
    rw [chatListLinks_setChatListLinks]
    exact hlinks
  · rw [chatListLinks_setChatListLinks_other e list other links ho]
    exact h other

theorem addToChatList_returns {σ : Type} (ops : IndexedList σ) (list : Mode)
    (w : World) (indexed : σ)
    (hzero : ∀ s k, RowsByLetter.find (ops.addToEnd s k).1 0 ≠ none)
    (h : linksAnchored w.entry) :
    ∃ r, addToChatList ops list w indexed = some r ∧ linksAnchored r.2.1.entry := by
  cases hfind : RowsByLetter.find (chatListLinks w.entry list) 0 with
  | some row => exact ⟨_, addToChatList_of_member ops list w indexed row hfind, h⟩
  | none =>
    obtain ⟨row, hrow⟩ := Option.ne_none_iff_exists'.mp (hzero indexed w.entry.keyId)
    have hlinks : linksAnchored
        (setChatListLinks w.entry list (ops.addToEnd indexed w.entry.keyId).1) :=
      linksAnchored_set w.entry list _ h (Or.inr (by rw [hrow]; rfl))
    refine ⟨(row, World.emit
      { w with entry := setChatListLinks w.entry list (ops.addToEnd indexed w.entry.keyId).1 }
      (Event.changedInChatListHook list true), (ops.addToEnd indexed w.entry.keyId).2), ?_, ?_⟩
    · simp [addToChatList, inChatList, hfind, mainChatListLink, World.emit,
        chatListLinks_setChatListLinks, hrow]
    · exact hlinks

theorem runStep_anchored {σ : Type} (ops : Mode → IndexedList σ) (step : LinkStep)
    (ws : World × σ)
    (hzero : ∀ list s k, RowsByLetter.find ((ops list).addToEnd s k).1 0 ≠ none)
    (hletter : step.letter ≠ some 0) (h : linksAnchored ws.1.entry) :
    ∃ ws', runStep ops step ws = some ws' ∧ linksAnchored ws'.1.entry := by
  cases step with
  | addToChatList list =>
    obtain ⟨r, hcall, hr⟩ := addToChatList_returns (ops list) list ws.1 ws.2 (hzero list) h
    exact ⟨r.2, by simp [runStep, hcall], hr⟩
  | removeFromChatList list =>
    refine ⟨_, rfl, ?_⟩
    unfold removeFromChatList
    split
    · exact linksAnchored_set ws.1.entry list [] h (Or.inl rfl)
    · exact h
  | addChatListEntryByLetter list letter row =>
    have hl : letter ≠ 0 := fun h0 => hletter (by simp [LinkStep.letter, h0])
    cases hin : inChatList ws.1.entry list
    · exact ⟨ws, by simp [runStep, addChatListEntryByLetter, hl, hin], h⟩
    · refine ⟨({ ws.1 with entry := (setChatListLinks ws.1.entry list
          (RowsByLetter.emplace (chatListLinks ws.1.entry list) letter row)) }, ws.2),
        by simp [runStep, addChatListEntryByLetter, hl, hin], ?_⟩
      refine linksAnchored_set ws.1.entry list _ h (Or.inr ?_)
      rw [find_zero_emplace _ _ _ hin]
      exact hin
  | removeChatListEntryByLetter list letter =>
    have hl : letter ≠ 0 := fun h0 => hletter (by simp [LinkStep.letter, h0])
    cases hin : inChatList ws.1.entry list
    · exact ⟨ws, by simp [runStep, removeChatListEntryByLetter, hl, hin], h⟩
    · refine ⟨({ ws.1 with entry := (setChatListLinks ws.1.entry list
          (RowsByLetter.remove (chatListLinks ws.1.entry list) letter)) }, ws.2),
        by simp [runStep, removeChatListEntryByLetter, hl, hin], ?_⟩
      refine linksAnchored_set ws.1.entry list _ h (Or.inr ?_)
      rw [find_zero_remove _ _ hl]
      exact hin

theorem runSteps_anchored {σ : Type} (ops : Mode → IndexedList σ) (steps : List LinkStep)
    (ws : World × σ)
    (hzero : ∀ list s k, RowsByLetter.find ((ops list).addToEnd s k).1 0 ≠ none)
    (hletters : ∀ step ∈ steps, step.letter ≠ some 0) (h : linksAnchored ws.1.entry) :
    ∃ ws', runSteps ops steps ws = some ws' ∧ linksAnchored ws'.1.entry := by
  induction steps generalizing ws with
  | nil => exact ⟨ws, rfl, h⟩
  | cons step rest ih =>
    obtain ⟨ws1, hstep, h1⟩ :=
      runStep_anchored ops step ws hzero (hletters step (List.mem_cons_self _ _)) h
    obtain ⟨ws2, hrest, h2⟩ :=
      ih ws1 (fun st hst => hletters st (List.mem_cons_of_mem _ hst)) h1
    exact ⟨ws2, by simp [runSteps, hstep, hrest], h2⟩

/-- C11: for every entry state reached from empty link maps by `addToChatList`
(with `addToEnd` results that contain a letter-0 node), `removeFromChatList`,
`addChatListEntryByLetter` and `removeChatListEntryByLetter` with non-zero
letters, no call on the way fails, and for each list: the entry is in the list
iff a letter-0 mapping exists, which is also iff its link map is non-empty;
`mainChatListLink`, `posInChatList` and `adjustByPosInChatList` fail their
assertion iff the entry is not in the list; when it is in the list
`mainChatListLink` returns a letter-0 node of the map; and `addToChatList`
returns (its final lookup does not fail). -/
theorem mainChatListLink_fails_iff_not_member {σ : Type} (ops : Mode → IndexedList σ)
    (rp : RowPositions σ) (steps : List LinkStep) (w : World) (s : σ)
    (hempty : ∀ list, chatListLinks w.entry list = [])
    (hzero : ∀ list s k, RowsByLetter.find ((ops list).addToEnd s k).1 0 ≠ none)
    (hletters : ∀ step ∈ steps, step.letter ≠ some 0) :
    ∃ w' s', runSteps ops steps (w, s) = some (w', s') ∧ ∀ list,
      (inChatList w'.entry list = true ↔ ∃ row, (0, row) ∈ chatListLinks w'.entry list) ∧
      (inChatList w'.entry list = true ↔ chatListLinks w'.entry list ≠ []) ∧
      (mainChatListLink w'.entry list = none ↔ inChatList w'.entry list = false) ∧
      (posInChatList rp list w' s' = none ↔ inChatList w'.entry list = false) ∧
      (adjustByPosInChatList rp list w' s' = none ↔ inChatList w'.entry list = false) ∧
      (inChatList w'.entry list = true →
        ∃ row, mainChatListLink w'.entry list = some row ∧
          (0, row) ∈ chatListLinks w'.entry list ∧
          posInChatList rp list w' s' = some (rp.pos s' row)) ∧
      (∃ r, addToChatList (ops list) list w' s' = some r) := by
  obtain ⟨⟨w', s'⟩, hrun, hanch⟩ :=
    runSteps_anchored ops steps (w, s) hzero hletters (fun list => Or.inl (hempty list))
  refine ⟨w', s', hrun, fun list => ?_⟩
  have hmain : mainChatListLink w'.entry list = none ↔ inChatList w'.entry list = false := by
    unfold mainChatListLink inChatList
    cases RowsByLetter.find (chatListLinks w'.entry list) 0 <;> simp
  refine ⟨find_zero_isSome_iff _, ?_, hmain, ?_, ?_, ?_, ?_⟩
  · constructor
    · intro hin hnil
      unfold inChatList at hin
      rw [hnil] at hin
      cases hin
    · intro hne
      rcases hanch list with hnil | hsome
      · exact absurd hnil hne
      · exact hsome
  · rw [← hmain]
    simp [posInChatList]
  · rw [← hmain]
    simp [adjustByPosInChatList]
  · intro hin
    obtain ⟨row, hrow⟩ := Option.isSome_iff_exists.mp hin
    exact ⟨row, hrow, find_zero_mem _ row hrow, by simp [posInChatList, mainChatListLink, hrow]⟩
  · obtain ⟨r, hcall, -⟩ := addToChatList_returns (ops list) list w' s' (hzero list) hanch
    exact ⟨r, hcall⟩

/-- C11, at a fresh entry that is added to the `Mode::All` list, indexed under
the letters 65 and 66, loses the letter 65, and is removed from the
`Mode::Important` list it never joined: the run returns with the link map
`[(0, 2), (66, 9)]` for `Mode::All` and an empty one for `Mode::Important`. -/
theorem mainChatListLink_fails_iff_not_member_witness :
    runSteps (fun _ => keyList)
        [LinkStep.addToChatList Mode.All,
          LinkStep.addChatListEntryByLetter Mode.All 65 8,
          LinkStep.addChatListEntryByLetter Mode.All 66 9,
          LinkStep.removeChatListEntryByLetter Mode.All 65,
          LinkStep.removeFromChatList Mode.Important]
        (worldOf entryFresh 0, [3, 4])
      = some ({ worldOf { entryFresh with linksAll := [(0, 2), (66, 9)] } 0 with
                log := [Event.changedInChatListHook Mode.All true] }, [3, 4, 7]) ∧
    ∃ w' s', runSteps (fun _ => keyList)
        [LinkStep.addToChatList Mode.All,
          LinkStep.addChatListEntryByLetter Mode.All 65 8,
          LinkStep.addChatListEntryByLetter Mode.All 66 9,
          LinkStep.removeChatListEntryByLetter Mode.All 65,
          LinkStep.removeFromChatList Mode.Important]
        (worldOf entryFresh 0, [3, 4]) = some (w', s') ∧ ∀ list,
      (inChatList w'.entry list = true ↔ ∃ row, (0, row) ∈ chatListLinks w'.entry list) ∧
      (inChatList w'.entry list = true ↔ chatListLinks w'.entry list ≠ []) ∧
      (mainChatListLink w'.entry list = none ↔ inChatList w'.entry list = false) ∧
      (posInChatList positionsPlain list w' s' = none ↔ inChatList w'.entry list = false) ∧
      (adjustByPosInChatList positionsPlain list w' s' = none
        ↔ inChatList w'.entry list = false) ∧
      (inChatList w'.entry list = true →
        ∃ row, mainChatListLink w'.entry list = some row ∧
          (0, row) ∈ chatListLinks w'.entry list ∧
          posInChatList positionsPlain list w' s' = some (positionsPlain.pos s' row)) ∧
      (∃ r, addToChatList keyList list w' s' = some r) :=
  ⟨by decide,
    mainChatListLink_fails_iff_not_member (fun _ => keyList) positionsPlain
      [LinkStep.addToChatList Mode.All,
        LinkStep.addChatListEntryByLetter Mode.All 65 8,
        LinkStep.addChatListEntryByLetter Mode.All 66 9,
        LinkStep.removeChatListEntryByLetter Mode.All 65,
        LinkStep.removeFromChatList Mode.Important]
      (worldOf entryFresh 0) [3, 4]
      (fun list => by cases list <;> rfl)
      (fun _ _ _ => by simp [keyList, RowsByLetter.find])
      (by decide)⟩

end Dialogs

namespace HistoryGame

/-! The line counts of a game message -/

theorem tdiv_lt_iff_lt_mul (h n d : Int) (hd : 0 < d) (hn : 0 < n) :
    Int.tdiv h d < n ↔ h < n * d := by
  by_cases h0 : 0 ≤ h
  · rw [Int.tdiv_eq_ediv h0 (le_of_lt hd)]
    exact Int.ediv_lt_iff_lt_mul hd
  · have hneg : 0 ≤ -h := by omega
    have hq : 0 ≤ Int.tdiv (-h) d := Int.tdiv_nonneg hneg (le_of_lt hd)
    rw [Int.neg_tdiv] at hq
    have hpos : 0 < n * d := Int.mul_pos hn hd
    constructor
    · intro _
      omega
    · intro _
      omega

theorem titlePart_lines (env : Layout) (inner : Int)
    (hfont : 0 < env.webPageTitleFontHeight ∧ env.webPageTitleFontHeight < 2 ^ 19) :
    (titlePart env inner).1
      = if env.titleIsEmpty then 0
        else if 2 * env.webPageTitleFontHeight ≤ env.titleCountHeight inner then 2 else 1 := by
  have hmul : mulInt 2 env.webPageTitleFontHeight = 2 * env.webPageTitleFontHeight := by
    unfold mulInt
    exact Dialogs.wrapInt32_of_range _ (by omega) (by omega)
  unfold titlePart
  cases env.titleIsEmpty
  · simp only [Bool.false_eq_true, if_false, hmul]
    split <;> split <;> first | rfl | omega
  · simp

theorem descriptionPart_lines (env : Layout) (inner titleLines newHeight : Int)
    (hfont : 0 < env.webPageDescriptionFontHeight ∧ env.webPageDescriptionFontHeight < 2 ^ 19)
    (htitle : titleLines = 0 ∨ titleLines = 1 ∨ titleLines = 2) :
    ∃ r, descriptionPart env inner titleLines newHeight = some r ∧
      r.1 = if env.descriptionIsEmpty then 0
            else min (Int.tdiv (env.descriptionCountHeight inner)
              env.webPageDescriptionFontHeight) (4096 - titleLines) := by
  have hsub : subInt 4096 titleLines = 4096 - titleLines := by
    unfold subInt
    exact Dialogs.wrapInt32_of_range _ (by omega) (by omega)
  have hmul : mulInt (4096 - titleLines) env.webPageDescriptionFontHeight
      = (4096 - titleLines) * env.webPageDescriptionFontHeight := by
    unfold mulInt
    rcases htitle with h | h | h <;> rw [h] <;>
      exact Dialogs.wrapInt32_of_range _ (by omega) (by omega)
  have hne : env.webPageDescriptionFontHeight ≠ 0 := by omega
  have hiff := tdiv_lt_iff_lt_mul (env.descriptionCountHeight inner) (4096 - titleLines)
    env.webPageDescriptionFontHeight hfont.1 (by omega)
  unfold descriptionPart
  cases env.descriptionIsEmpty
  · simp only [Bool.false_eq_true, if_false, hsub, hmul, divInt, hne]
    by_cases hlt : env.descriptionCountHeight inner
        < (4096 - titleLines) * env.webPageDescriptionFontHeight
    · have hq := hiff.mpr hlt
      simp only [hlt, if_true, Option.map_some']
      exact ⟨_, rfl, (min_eq_left (le_of_lt hq)).symm⟩
    · have hq : ¬ Int.tdiv (env.descriptionCountHeight inner)
          env.webPageDescriptionFontHeight < 4096 - titleLines := fun h => hlt (hiff.mp h)
      simp only [hlt, if_false, Option.map_some']
      exact ⟨_, rfl, (min_eq_right (not_lt.mp hq)).symm⟩
  · simp

/-- C12 fails as stated: with a title font 10 high and a title whose wrapped
height is exactly 20, twice the font's height and not more, `countCurrentSize`
gives the title 2 lines (the claim gives it 1). -/
theorem title_at_twice_font_height_gets_two_lines :
    (layoutOf 20 35).titleIsEmpty = false ∧
    (layoutOf 20 35).titleCountHeight (innerWidth (layoutOf 20 35) 300) = 20 ∧
    ¬ (layoutOf 20 35).titleCountHeight (innerWidth (layoutOf 20 35) 300)
        > 2 * (layoutOf 20 35).webPageTitleFontHeight ∧
    (countCurrentSize (layoutOf 20 35) 300).map (fun r => r._titleLines) = some 2 := by
  decide

/-- C12, amended: with the two font heights positive and below `2^19`, for every
width `countCurrentSize` returns; an empty title gets 0 title lines; a non-empty
title gets 2 lines when its wrapped height at the inner width is at least twice
the title font's height and 1 line otherwise; an empty description gets 0
lines and a non-empty one gets its wrapped height divided (integer division) by
the description font's height, capped at 4096 minus the title lines, so that
title lines plus description lines never exceed 4096; the returned width is
`min(newWidth, maxWidth())`. -/
theorem countCurrentSize_lines (env : Layout) (newWidth : Int)
    (htitle : 0 < env.webPageTitleFontHeight ∧ env.webPageTitleFontHeight < 2 ^ 19)
    (hdesc : 0 < env.webPageDescriptionFontHeight
      ∧ env.webPageDescriptionFontHeight < 2 ^ 19) :
    ∃ r, countCurrentSize env newWidth = some r ∧
      r.width = min newWidth env.maxWidth ∧
      (env.titleIsEmpty = true → r._titleLines = 0) ∧
      (env.titleIsEmpty = false →
        r._titleLines
          = if 2 * env.webPageTitleFontHeight
                ≤ env.titleCountHeight (innerWidth env newWidth) then 2 else 1) ∧
      (env.descriptionIsEmpty = true → r._descriptionLines = 0) ∧
      (env.descriptionIsEmpty = false →
        r._descriptionLines
          = min (Int.tdiv (env.descriptionCountHeight (innerWidth env newWidth))
              env.webPageDescriptionFontHeight) (4096 - r._titleLines)) ∧
      r._titleLines + r._descriptionLines ≤ 4096 := by
  have ht := titlePart_lines env (innerWidth env newWidth) htitle
  have ht3 : (titlePart env (innerWidth env newWidth)).1 = 0
      ∨ (titlePart env (innerWidth env newWidth)).1 = 1
      ∨ (titlePart env (innerWidth env newWidth)).1 = 2 := by
    rw [ht]
    split
    · exact Or.inl rfl
    · split
      · exact Or.inr (Or.inr rfl)
      · exact Or.inr (Or.inl rfl)
  obtain ⟨d, hd, hlines⟩ := descriptionPart_lines env (innerWidth env newWidth)
    (titlePart env (innerWidth env newWidth)).1 (titlePart env (innerWidth env newWidth)).2
    hdesc ht3
  have hcall : countCurrentSize env newWidth
      = some
          { _titleLines := (titlePart env (innerWidth env newWidth)).1
            _descriptionLines := d.1
            width := accumulate_min newWidth env.maxWidth
            height :=
              addInt (attachPart env (innerWidth env newWidth)
                  (titlePart env (innerWidth env newWidth)).1 d.1 d.2)
                (addInt env.inBubblePaddingTop env.inBubblePaddingBottom) } := by
    simp only [countCurrentSize, hd, Option.map_some']
  refine ⟨_, hcall, ?_, ?_, ?_, ?_, ?_, ?_⟩
  · simp only [accumulate_min]
    split
    · exact (min_eq_right (by omega)).symm
    · exact (min_eq_left (by omega)).symm
  · intro hempty
    simp only [ht, hempty, if_true]
  · intro hempty
    simp only [ht, hempty, Bool.false_eq_true, if_false]
  · intro hempty
    simp only [hlines, hempty, if_true]
  · intro hempty
    simp only [hlines, hempty, Bool.false_eq_true, if_false]
  · simp only [hlines]
    split
    · omega
    · have := min_le_right (Int.tdiv (env.descriptionCountHeight (innerWidth env newWidth))
        env.webPageDescriptionFontHeight) (4096 - (titlePart env (innerWidth env newWidth)).1)
      omega

/-- C12, amended, at width 300 with fonts 10 high, a title wrapped to height 20
and a description wrapped to height 35: 2 title lines, 3 description lines, and
the width 300 of the request, below the maximal width 400. -/
theorem countCurrentSize_lines_witness :
    (countCurrentSize (layoutOf 20 35) 300).map
        (fun r => (r._titleLines, r._descriptionLines, r.width)) = some (2, 3, 300) ∧
    ∃ r, countCurrentSize (layoutOf 20 35) 300 = some r ∧
      r.width = min 300 (layoutOf 20 35).maxWidth ∧
      ((layoutOf 20 35).titleIsEmpty = true → r._titleLines = 0) ∧
      ((layoutOf 20 35).titleIsEmpty = false →
        r._titleLines
          = if 2 * (layoutOf 20 35).webPageTitleFontHeight
                ≤ (layoutOf 20 35).titleCountHeight (innerWidth (layoutOf 20 35) 300)
            then 2 else 1) ∧
      ((layoutOf 20 35).descriptionIsEmpty = true → r._descriptionLines = 0) ∧
      ((layoutOf 20 35).descriptionIsEmpty = false →
        r._descriptionLines
          = min (Int.tdiv
              ((layoutOf 20 35).descriptionCountHeight (innerWidth (layoutOf 20 35) 300))
              (layoutOf 20 35).webPageDescriptionFontHeight) (4096 - r._titleLines)) ∧
      r._titleLines + r._descriptionLines ≤ 4096 :=
  ⟨by decide, countCurrentSize_lines (layoutOf 20 35) 300 (by decide) (by decide)⟩

end HistoryGame
